import Mathlib

/-!
# Mando: remote control of a volleyball scoreboard

Shallow embedding of `src/main.cpp` (Arduino firmware) and the properties of
its debounce / auto-repeat / dispatch logic.

Conventions of the embedding

* `millis()` is a parameter `now` of every routine that reads the clock; one
  invocation of `Pulsado`, `Beep`, `EnviarPulsacion` or `loop` observes one
  clock value.
* `digitalRead` is a parameter `pins : Nat → Bool` (pin number ↦ level).
* `digitalWrite` on the two output pins is kept as the fields `led` and `buz`.
* `Serial.write` appends to the field `serie`, the bytes sent so far.
* `unsigned long` is `Nat` with explicit reduction modulo `2 ^ 32`, `uint8_t`
  counters are `Nat` with explicit reduction modulo `256`, the 0/1 flags
  `botonPulsado` and `sonando` are `Bool`.
* `Retardo` is written over a linear ordered field with the library function
  `pow` as a parameter, and read over the reals for the bounds of the curve; the
  `float` sum of `loop` that uses its result is modelled in binary32
  (`tiempoTrasRetardo`).
-/

namespace Mando

/-! ## Button table -/

/-- Entry of the table: `typedef struct { const uint8_t PIN; const uint8_t CHR; } s_Boton`. -/
structure s_Boton where
  PIN : Nat
  CHR : Char
deriving DecidableEq, Repr

/-- First analog pin of the board (`Arduino.h`), pin 14 on the ATmega328 boards.
Only the buzzer output is attached to it. -/
def A0 : Nat := 14

/-- Buzzer. -/
def DEF_BUZ : s_Boton := ⟨A0, ' '⟩
/-- Led. -/
def DEF_LED : s_Boton := ⟨13, ' '⟩
/-- Sumar puntos local. -/
def DEF_SPL : s_Boton := ⟨12, 'a'⟩
/-- Restar puntos local. -/
def DEF_RPL : s_Boton := ⟨11, 'b'⟩
/-- Sumar puntos visitante. -/
def DEF_SPV : s_Boton := ⟨10, 'c'⟩
/-- Restar puntos visitante. -/
def DEF_RPV : s_Boton := ⟨9, 'd'⟩
/-- Setear saque local. -/
def DEF_SSL : s_Boton := ⟨8, 'g'⟩
/-- Setear saque visitante. -/
def DEF_SSV : s_Boton := ⟨7, 'h'⟩
/-- Continuar. -/
def DEF_INI : s_Boton := ⟨6, 'k'⟩
/-- Invertir. -/
def DEF_INV : s_Boton := ⟨5, 'i'⟩
/-- Reset. -/
def DEF_RST : s_Boton := ⟨4, 'j'⟩
/-- Sirena On. -/
def DEF_SIR : s_Boton := ⟨3, 'f'⟩
/-- Interrupcion. -/
def DEF_INT : s_Boton := ⟨2, ' '⟩
/-- Sirena Off. -/
def DEF_SIR_OFF : s_Boton := ⟨0, 'e'⟩

/-! ## Constants -/

/-- Tiempo base de retardo entre pulsaciones iterativas. -/
def CST_RETARDO : Nat := 700
/-- Tiempo para evitar rebotes en hardware. -/
def CST_FILTRO : Nat := 120
/-- Duración del buzzer. -/
def CST_BEEP : Nat := 20
/-- Factor de aceleración, `0.5`. -/
def CST_FCT_ACCEL {α : Type} [LinearOrderedField α] : α := 0.5
/-- Retardo mínimo reducido por la aceleración. -/
def CST_LIM_ACCEL : Nat := 50

/-- The version string printed by `setup`. -/
def VERSION : String := "13-12-2024-MANDO-V0.2"

/-! ## Machine arithmetic -/

/-- Number of values of an `unsigned long` (32 bits on the AVR boards). -/
def ULONG : Nat := 2 ^ 32

/-- Addition of `unsigned long`. -/
def sumaUL (a b : Nat) : Nat := (a + b) % ULONG

/-- Subtraction of `unsigned long`: wraps around below zero. -/
def restaUL (a b : Nat) : Nat := (a % ULONG + (ULONG - b % ULONG)) % ULONG

/-! ## State -/

/-- The global variables of the firmware, the level of the two output pins and
the bytes written to the serial port. The scratch global `retardo` (the last
quotient computed by `Retardo`) is read nowhere else and is left out. -/
structure Estado where
  /-- Bandera de pulsación. -/
  botonPulsado : Bool
  /-- Contador de iteraciones de pulsación (`uint8_t`). -/
  contador : Nat
  /-- Bandera de buzzer activo. -/
  sonando : Bool
  /-- Instant (ms) of the next press. -/
  tiempoFuturo : Nat
  /-- Instant (ms) of the previous press. -/
  tiempoAnterior : Nat
  /-- Instant (ms) at which the buzzer is switched off. -/
  tiempoBeep : Nat
  /-- Level of the output pin `DEF_LED.PIN`. -/
  led : Bool
  /-- Level of the output pin `DEF_BUZ.PIN`. -/
  buz : Bool
  /-- Bytes written to the serial port, oldest first. -/
  serie : List Char
deriving DecidableEq, Repr

/-- The call `Serial.write(c)`. -/
def Serial_write (c : Char) (s : Estado) : Estado :=
  { s with serie := s.serie ++ [c] }

/-! ## The routines of `main.cpp` -/

/-- Interrupt routine on CHANGE of pin `DEF_INT.PIN`: the level of the pin
tells the press edge (low) from the release edge (high). -/
def Pulsado (now : Nat) (pins : Nat → Bool) (s : Estado) : Estado :=
  if !pins DEF_INT.PIN then
    { s with tiempoFuturo := sumaUL now CST_FILTRO, led := true, botonPulsado := true }
  else
    Serial_write DEF_SIR_OFF.CHR { s with led := false, botonPulsado := false, contador := 0 }

/-- Buzzer on, to be switched off `CST_BEEP` ms later. -/
def Beep (now : Nat) (s : Estado) : Estado :=
  { s with tiempoBeep := sumaUL now CST_BEEP, buz := true, sonando := true }

/-- Scan of the buttons: one byte for the first active score button, and on
the first press (`contador` zero) one byte for the first active momentary
button. -/
def EnviarPulsacion (contador : Nat) (now : Nat) (pins : Nat → Bool) (s : Estado) : Estado :=
  let s1 :=
    if pins DEF_SPL.PIN then Beep now (Serial_write DEF_SPL.CHR s)
    else if pins DEF_RPL.PIN then Beep now (Serial_write DEF_RPL.CHR s)
    else if pins DEF_SPV.PIN then Beep now (Serial_write DEF_SPV.CHR s)
    else if pins DEF_RPV.PIN then Beep now (Serial_write DEF_RPV.CHR s)
    else s
  if contador = 0 then
    if pins DEF_SSL.PIN then Beep now (Serial_write DEF_SSL.CHR s1)
    else if pins DEF_SSV.PIN then Beep now (Serial_write DEF_SSV.CHR s1)
    else if pins DEF_INI.PIN then Beep now (Serial_write DEF_INI.CHR s1)
    else if pins DEF_INV.PIN then Beep now (Serial_write DEF_INV.CHR s1)
    else if pins DEF_RST.PIN then Beep now (Serial_write DEF_RST.CHR s1)
    else if pins DEF_SIR.PIN then Beep now (Serial_write DEF_SIR.CHR s1)
    else s1
  else s1

/-- Acceleration curve `r/(x+1)^a` with floor `CST_LIM_ACCEL`, over exact
arithmetic; `pow` is the power function of the C library. -/
def Retardo {α : Type} [LinearOrderedField α] (pow : α → α → α) (contador : Nat) : α :=
  let retardo : α := (CST_RETARDO : α) / pow ((contador : α) * 1.0 + 1) CST_FCT_ACCEL
  if retardo >= (CST_LIM_ACCEL : α) then retardo else (CST_LIM_ACCEL : α)

/-- Whole part of `Retardo contador` over the reals: the greatest `k` with
`k * sqrt (contador + 1) ≤ CST_RETARDO`, and at least `CST_LIM_ACCEL`. -/
def RetardoTrunc (contador : Nat) : Nat :=
  max CST_LIM_ACCEL
    (Nat.findGreatest (fun k => k * k * (contador + 1) ≤ CST_RETARDO * CST_RETARDO) CST_RETARDO)

/-- The condition under which a pass of `loop` at time `now` sends a press:
`millis()>=tiempoFuturo&&botonPulsado` and `!(millis()-tiempoAnterior<=CST_FILTRO)`. -/
def aceptado (now : Nat) (s : Estado) : Bool :=
  (decide (now ≥ s.tiempoFuturo) && s.botonPulsado) &&
    !decide (restaUL now s.tiempoAnterior ≤ CST_FILTRO)

/-! ### The `float` sum of line 181

`tiempoFuturo=millis()+Retardo(contador)` adds an `unsigned long` and a `float`:
the clock is converted to `float`, the sum is a `float` sum, and the result is
truncated on assignment. `float` is binary32: 24 significant bits, rounding to
nearest, ties to even. The `float` values that occur here are multiples of
`2 ^ (-40)`, and a natural number `v` stands for the `float` `v / 2 ^ 40`.
`pow` and the quotient of `Retardo` are read as correctly rounded, so the
`float` that `Retardo` stores is the binary32 number nearest to
`700 / sqrt (contador + 1)`. -/

/-- One, in the fixed-point unit of the `float` values: `v` stands for `v / 2 ^ 40`. -/
def UNIDAD : Nat := 2 ^ 40

/-- Integer square root, bit by bit from bit `i - 1` down: the greatest `r` of
the form `acc + (bits below i)` with `r ^ 2 ≤ x`. -/
def raizDesde : Nat → Nat → Nat → Nat
  | 0, acc, _ => acc
  | i + 1, acc, x =>
      if (acc + 2 ^ i) ^ 2 ≤ x then raizDesde i (acc + 2 ^ i) x else raizDesde i acc x

/-- Integer square root of a number below `2 ^ 128`. -/
def raizEntera (x : Nat) : Nat := raizDesde 64 0 x

/-- The number of low bits of `x` that do not fit a significand of 24 bits. -/
def bitsSobrantes (x : Nat) : Nat :=
  Nat.findGreatest (fun k => 2 ^ (23 + k) ≤ x) 64

/-- Rounding to 24 significant bits, to nearest, ties to even (binary32). -/
def redondear24 (x : Nat) : Nat :=
  let k := bitsSobrantes x
  let q := x / 2 ^ k
  let r := x % 2 ^ k
  if 2 * r < 2 ^ k then q * 2 ^ k
  else if 2 * r = 2 ^ k ∧ q % 2 = 0 then q * 2 ^ k
  else (q + 1) * 2 ^ k

/-- Conversion of an `unsigned long` to `float`. -/
def floatDeULong (n : Nat) : Nat := redondear24 (n * UNIDAD)

/-- The `float` returned by `Retardo(contador)`: the binary32 number nearest to
`700 / sqrt (contador + 1)` if it is at least 50, else 50. `v` is the whole part
of `700 / sqrt (contador + 1) * 2 ^ 39`, and `w` that of the same times
`2 ^ 40`, with its last bit set when the square root is not exact. Its whole
part is that of the real `Retardo` (`RetardoF_div`) and it is within
`2 ^ (-16)` of it (`RetardoF_cerca`). -/
def RetardoF (contador : Nat) : Nat :=
  let v := raizEntera (CST_RETARDO ^ 2 * 2 ^ 78 / (contador + 1))
  let w := 2 * v + (if v ^ 2 * (contador + 1) = CST_RETARDO ^ 2 * 2 ^ 78 then 0 else 1)
  let retardo := redondear24 w
  if retardo ≥ CST_LIM_ACCEL * UNIDAD then retardo else CST_LIM_ACCEL * UNIDAD

/-- The value assigned by `tiempoFuturo=millis()+Retardo(contador)`: the `float`
sum of the clock and the delay, truncated to `unsigned long` (a sum out of the
range of `unsigned long`, undefined in C, is reduced modulo `2 ^ 32`). -/
def tiempoTrasRetardo (now contador : Nat) : Nat :=
  (redondear24 (floatDeULong now + RetardoF contador) / UNIDAD) % ULONG

/-- The block of `loop` run for a legitimate press ("Es legítimo"): dispatch,
saturating increment of the counter, and the two time stamps. -/
def pulsacionLegitima (now : Nat) (pins : Nat → Bool) (s : Estado) : Estado :=
  let s1 := EnviarPulsacion s.contador now pins s
  let s2 := if s1.contador ≤ 254 then { s1 with contador := (s1.contador + 1) % 256 } else s1
  let s3 := { s2 with tiempoAnterior := s2.tiempoFuturo }
  { s3 with tiempoFuturo := tiempoTrasRetardo now s3.contador }

/-- First statement of `loop`: the repetition engine. -/
def loopPulsacion (now : Nat) (pins : Nat → Bool) (s : Estado) : Estado :=
  if now ≥ s.tiempoFuturo ∧ s.botonPulsado = true then
    if ¬ (restaUL now s.tiempoAnterior ≤ CST_FILTRO) then
      pulsacionLegitima now pins s
    else s
  else s

/-- Second statement of `loop`: the buzzer is switched off after its time. -/
def loopBuzzer (now : Nat) (s : Estado) : Estado :=
  if now ≥ s.tiempoBeep ∧ s.sonando = true then
    { s with buz := false, sonando := false }
  else s

/-- One pass of `loop()` at time `now`. -/
def loop (now : Nat) (pins : Nat → Bool) (s : Estado) : Estado :=
  loopBuzzer now (loopPulsacion now pins s)

/-- The state after `setup()`: the globals at their initial values and the
version line on the serial port. -/
def setup : Estado :=
  { botonPulsado := false, contador := 0, sonando := false,
    tiempoFuturo := 0, tiempoAnterior := 0, tiempoBeep := 0,
    led := false, buz := false,
    serie := VERSION.toList ++ [Char.ofNat 13, Char.ofNat 10] }

/-! ## Traces -/

/-- What happens to the firmware: an interrupt on the shared line, or one pass
of the main loop, each at a clock value and with the pin levels it reads. -/
inductive Evento where
  | flanco (now : Nat) (pins : Nat → Bool)
  | tick (now : Nat) (pins : Nat → Bool)

/-- One event, run atomically. -/
def paso (s : Estado) : Evento → Estado
  | .flanco now pins => Pulsado now pins s
  | .tick now pins => loop now pins s

/-- A sequence of events, run in order. -/
def correr (s : Estado) (tr : List Evento) : Estado :=
  tr.foldl paso s

/-- The bytes written to the serial port between state `s` and a later state `t`. -/
def escritos (s t : Estado) : List Char :=
  t.serie.drop s.serie.length

/-- The event is a pass of `loop` at a clock value in `[a, b)`. -/
def esTickEntre (a b : Nat) : Evento → Prop
  | .tick now _ => a ≤ now ∧ now < b
  | .flanco _ _ => False

/-- Number of passes of `loop` in a trace that send a press. -/
def aceptados : Estado → List Evento → Nat
  | _, [] => 0
  | s, Evento.tick now pins :: tr =>
      (if aceptado now s then 1 else 0) + aceptados (loop now pins s) tr
  | s, Evento.flanco now pins :: tr => aceptados (Pulsado now pins s) tr

/-- Passes of `loop` at every clock value `a, a + 1, ..., a + n - 1`; the pins
read `pq t` at time `t`. -/
def densos (pq : Nat → Nat → Bool) : Nat → Nat → List Evento
  | _, 0 => []
  | a, n + 1 => Evento.tick a (pq a) :: densos pq (a + 1) n

/-- The dispatches of a trace: for each pass of `loop` that writes a byte, its
time and the counter it was sent with. -/
def despachos : Estado → List Evento → List (Nat × Nat)
  | _, [] => []
  | s, Evento.tick now pins :: tr =>
      (if escritos s (loop now pins s) = [] then [] else [(now, s.contador)]) ++
        despachos (loop now pins s) tr
  | s, Evento.flanco now pins :: tr => despachos (Pulsado now pins s) tr

/-- The counter after a press is sent with counter `c`. -/
def contadorSiguiente (c : Nat) : Nat :=
  if c ≤ 254 then (c + 1) % 256 else c

/-- With the button held and a pass of `loop` at every clock value, the first
pass that sends a press from time stamps `F` (`tiempoFuturo`) and `A`
(`tiempoAnterior`). -/
def proximo (F A : Nat) : Nat :=
  max F (A + CST_FILTRO + 1)

/-- The first `k` dispatches (time, counter) expected of a held score button,
with a pass of `loop` at every clock value, from time stamps `F`, `A` and
counter `c`. -/
def plan : Nat → Nat → Nat → Nat → List (Nat × Nat)
  | 0, _, _, _ => []
  | k + 1, F, A, c =>
      (proximo F A, c) ::
        plan k (proximo F A + RetardoTrunc (contadorSiguiente c)) F (contadorSiguiente c)

/-- The time of the dispatch that follows the first `k` of `plan`. -/
def planN : Nat → Nat → Nat → Nat → Nat
  | 0, F, A, _ => proximo F A
  | k + 1, F, A, c =>
      planN k (proximo F A + RetardoTrunc (contadorSiguiente c)) F (contadorSiguiente c)

/-- Sum of the first delays: `instanteDesde F c k` is `F` plus the whole parts of
`Retardo (c + 1)`, ..., `Retardo (c + k)`. -/
def instanteDesde (F c : Nat) : Nat → Nat
  | 0 => F
  | k + 1 => instanteDesde F c k + RetardoTrunc (c + k + 1)

/-! ## The dispatcher as the specification words it -/

/-- Chain (a): the score buttons, in priority order. -/
def cadenaPuntos : List s_Boton := [DEF_SPL, DEF_RPL, DEF_SPV, DEF_RPV]

/-- Chain (b): the momentary buttons, in priority order. -/
def cadenaMomentaneos : List s_Boton :=
  [DEF_SSL, DEF_SSV, DEF_INI, DEF_INV, DEF_RST, DEF_SIR]

/-- The byte of the first active button of a chain, nothing if none is active. -/
def primerActivo (pins : Nat → Bool) (cadena : List s_Boton) : List Char :=
  match cadena.find? (fun b => pins b.PIN) with
  | some b => [b.CHR]
  | none => []

/-- The bytes one dispatch writes, as the specification words it. -/
def bytesDespacho (contador : Nat) (pins : Nat → Bool) : List Char :=
  primerActivo pins cadenaPuntos ++
    (if contador = 0 then primerActivo pins cadenaMomentaneos else [])

/-- The event belongs to a hold of the momentary button `b`: it is a pass of
`loop` at which the scan of chain (b) finds `b` (`b` is active and no momentary
button before it in the chain is), or it is a further press edge; it is not a
release edge. -/
def retenido (b : s_Boton) : Evento → Prop
  | .tick _ pins => primerActivo pins cadenaMomentaneos = [b.CHR]
  | .flanco _ pins => pins DEF_INT.PIN = false

/-- First-match scan of a chain of buttons: the first active one sends its byte
and beeps. -/
def escanear (now : Nat) (pins : Nat → Bool) : List s_Boton → Estado → Estado
  | [], s => s
  | b :: l, s => if pins b.PIN then Beep now (Serial_write b.CHR s) else escanear now pins l s

/-- The times of the passes of `loop` of a trace that send a press, in order. -/
def instantesAceptados : Estado → List Evento → List Nat
  | _, [] => []
  | s, Evento.tick now pins :: tr =>
      (if aceptado now s then [now] else []) ++ instantesAceptados (loop now pins s) tr
  | s, Evento.flanco now pins :: tr => instantesAceptados (Pulsado now pins s) tr

/-- The event is a pass of `loop`. -/
def esTick : Evento → Prop
  | .tick _ _ => True
  | .flanco _ _ => False

/-- The event is a release edge: the interrupt routine run with the shared line
high. -/
def esSoltar : Evento → Prop
  | .flanco _ pins => pins DEF_INT.PIN = true
  | .tick _ _ => False

/-- The clock value of an event. -/
def tiempoDe : Evento → Nat
  | .flanco now _ => now
  | .tick now _ => now

/-! ## Properties -/

theorem escritos_of_append {s t : Estado} {out : List Char} (h : t.serie = s.serie ++ out) :
    escritos s t = out := by
  simp [escritos, h]

theorem primerActivo_nil (pins : Nat → Bool) : primerActivo pins [] = [] := rfl

theorem primerActivo_cons (pins : Nat → Bool) (b : s_Boton) (l : List s_Boton) :
    primerActivo pins (b :: l) = if pins b.PIN then [b.CHR] else primerActivo pins l := by
  cases h : pins b.PIN <;> simp [primerActivo, List.find?, h]

theorem EnviarPulsacion_eq_escanear (c now : Nat) (pins : Nat → Bool) (s : Estado) :
    EnviarPulsacion c now pins s =
      if c = 0 then escanear now pins cadenaMomentaneos (escanear now pins cadenaPuntos s)
      else escanear now pins cadenaPuntos s := rfl

theorem escanear_eq (now : Nat) (pins : Nat → Bool) (l : List s_Boton) (s : Estado) :
    escanear now pins l s =
      if primerActivo pins l = [] then s
      else { s with serie := s.serie ++ primerActivo pins l,
                    tiempoBeep := sumaUL now CST_BEEP, buz := true, sonando := true } := by
  induction l with
  | nil => simp [escanear, primerActivo_nil]
  | cons b l ih =>
    rw [escanear, primerActivo_cons]
    by_cases hb : pins b.PIN = true
    · simp [hb, Beep, Serial_write]
    · simp only [hb, if_false, Bool.false_eq_true]
      exact ih

theorem escanear_serie (now : Nat) (pins : Nat → Bool) (l : List s_Boton) (s : Estado) :
    (escanear now pins l s).serie = s.serie ++ primerActivo pins l := by
  rw [escanear_eq]
  split_ifs with h <;> simp [h]

theorem escanear_frame (now : Nat) (pins : Nat → Bool) (l : List s_Boton) (s : Estado) :
    (escanear now pins l s).botonPulsado = s.botonPulsado
    ∧ (escanear now pins l s).contador = s.contador
    ∧ (escanear now pins l s).tiempoFuturo = s.tiempoFuturo
    ∧ (escanear now pins l s).tiempoAnterior = s.tiempoAnterior
    ∧ (escanear now pins l s).led = s.led := by
  rw [escanear_eq]
  split_ifs <;> simp

theorem EnviarPulsacion_serie (c now : Nat) (pins : Nat → Bool) (s : Estado) :
    (EnviarPulsacion c now pins s).serie = s.serie ++ bytesDespacho c pins := by
  rw [EnviarPulsacion_eq_escanear, bytesDespacho]
  split_ifs <;> simp [escanear_serie]

theorem EnviarPulsacion_frame (c now : Nat) (pins : Nat → Bool) (s : Estado) :
    (EnviarPulsacion c now pins s).botonPulsado = s.botonPulsado
    ∧ (EnviarPulsacion c now pins s).contador = s.contador
    ∧ (EnviarPulsacion c now pins s).tiempoFuturo = s.tiempoFuturo
    ∧ (EnviarPulsacion c now pins s).tiempoAnterior = s.tiempoAnterior
    ∧ (EnviarPulsacion c now pins s).led = s.led := by
  rw [EnviarPulsacion_eq_escanear]
  split_ifs <;> simp [escanear_frame]

theorem escritos_EnviarPulsacion (c now : Nat) (pins : Nat → Bool) (s : Estado) :
    escritos s (EnviarPulsacion c now pins s) = bytesDespacho c pins :=
  escritos_of_append (EnviarPulsacion_serie c now pins s)

theorem primerActivo_length_le (pins : Nat → Bool) (l : List s_Boton) :
    (primerActivo pins l).length ≤ 1 := by
  induction l with
  | nil => simp [primerActivo_nil]
  | cons b l ih =>
    rw [primerActivo_cons]
    split_ifs <;> simp [ih]

theorem primerActivo_mem {pins : Nat → Bool} {l : List s_Boton} {x : Char}
    (h : x ∈ primerActivo pins l) : ∃ b ∈ l, pins b.PIN = true ∧ b.CHR = x := by
  induction l with
  | nil => simp [primerActivo_nil] at h
  | cons b l ih =>
    rw [primerActivo_cons] at h
    split_ifs at h with hb
    · simp only [List.mem_singleton] at h
      exact ⟨b, List.mem_cons_self _ _, hb, h.symm⟩
    · obtain ⟨b', hb', h1, h2⟩ := ih h
      exact ⟨b', List.mem_cons_of_mem _ hb', h1, h2⟩

theorem primerActivo_append_inactive {pins : Nat → Bool} (l1 r : List s_Boton)
    (h1 : ∀ x ∈ l1, pins x.PIN = false) :
    primerActivo pins (l1 ++ r) = primerActivo pins r := by
  induction l1 with
  | nil => rfl
  | cons a l1 ih =>
    have ha : pins a.PIN = false := h1 a (List.mem_cons_self _ _)
    rw [List.cons_append, primerActivo_cons, ha, ih (fun x hx => h1 x (List.mem_cons_of_mem _ hx))]
    simp

theorem primerActivo_before {pins : Nat → Bool} (l1 r : List s_Boton) (b : s_Boton)
    (hb : pins b.PIN = true) :
    ∃ x ∈ l1 ++ [b], primerActivo pins (l1 ++ b :: r) = [x.CHR] := by
  induction l1 with
  | nil => exact ⟨b, by simp, by simp [primerActivo_cons, hb]⟩
  | cons a l1 ih =>
    by_cases ha : pins a.PIN = true
    · exact ⟨a, by simp, by simp [primerActivo_cons, ha]⟩
    · obtain ⟨x, hx, h⟩ := ih
      exact ⟨x, List.mem_cons_of_mem _ hx, by simp [primerActivo_cons, ha, h]⟩

/-- C1: whatever the ten button pins read and whatever the counter, `EnviarPulsacion`
writes first the byte of the first active score button in the order a, b, c, d
(nothing if none is active) and then, only when the counter is zero, the byte of
the first active momentary button in the order g, h, k, i, j, f (nothing if none
is active); so at most one byte per chain, at most two per call, and with a
non-zero counter at most one byte, which is one of a, b, c, d. -/
theorem EnviarPulsacion_writes (c now : Nat) (pins : Nat → Bool) (s : Estado) :
    (EnviarPulsacion c now pins s).serie
        = s.serie ++ (primerActivo pins cadenaPuntos ++
            (if c = 0 then primerActivo pins cadenaMomentaneos else []))
    ∧ cadenaPuntos.map (fun b => b.CHR) = ['a', 'b', 'c', 'd']
    ∧ cadenaMomentaneos.map (fun b => b.CHR) = ['g', 'h', 'k', 'i', 'j', 'f']
    ∧ (primerActivo pins cadenaPuntos).length ≤ 1
    ∧ (primerActivo pins cadenaMomentaneos).length ≤ 1
    ∧ (escritos s (EnviarPulsacion c now pins s)).length ≤ 2
    ∧ (c ≠ 0 → (escritos s (EnviarPulsacion c now pins s)).length ≤ 1
        ∧ ∀ x ∈ escritos s (EnviarPulsacion c now pins s), x ∈ ['a', 'b', 'c', 'd']) := by
  have hA := primerActivo_length_le pins cadenaPuntos
  have hB := primerActivo_length_le pins cadenaMomentaneos
  refine ⟨EnviarPulsacion_serie c now pins s, rfl, rfl, hA, hB, ?_, ?_⟩
  · rw [escritos_EnviarPulsacion, bytesDespacho]
    split_ifs <;> simp <;> omega
  · intro hc
    rw [escritos_EnviarPulsacion, bytesDespacho, if_neg hc, List.append_nil]
    refine ⟨hA, fun x hx => ?_⟩
    obtain ⟨b, hb, -, rfl⟩ := primerActivo_mem hx
    simp only [cadenaPuntos, List.mem_cons, List.mem_singleton, List.not_mem_nil, or_false] at hb
    rcases hb with rfl | rfl | rfl | rfl <;> simp [DEF_SPL, DEF_RPL, DEF_SPV, DEF_RPV]

theorem cadenas_disjuntas :
    ∀ a ∈ cadenaPuntos, ∀ b ∈ cadenaMomentaneos, a.CHR ≠ b.CHR := by
  decide

theorem cadenaMomentaneos_nodup : (cadenaMomentaneos.map (fun b => b.CHR)).Nodup := by
  decide

theorem not_mem_primerActivo_puntos {pins : Nat → Bool} {b : s_Boton}
    (hb : b ∈ cadenaMomentaneos) : b.CHR ∉ primerActivo pins cadenaPuntos := by
  intro h
  obtain ⟨a, ha, -, hab⟩ := primerActivo_mem h
  exact cadenas_disjuntas a ha b hb hab

/-- C2: with serve-local and reset both active, whatever the other pins and the
counter, one dispatch never writes j, and with counter zero it writes g exactly
once; in general, of two active momentary buttons the later one in the order
g, h, k, i, j, f is never written, and when they are the only active momentary
buttons and the counter is zero chain (b) writes the byte of the earlier one. -/
theorem EnviarPulsacion_priority (c now : Nat) (pins : Nat → Bool) (s : Estado) :
    (pins DEF_SSL.PIN = true → pins DEF_RST.PIN = true →
        'j' ∉ escritos s (EnviarPulsacion c now pins s)
        ∧ (c = 0 → (escritos s (EnviarPulsacion c now pins s)).count 'g' = 1))
    ∧ (∀ (l1 l2 l3 : List s_Boton) (b1 b2 : s_Boton),
        cadenaMomentaneos = l1 ++ b1 :: (l2 ++ b2 :: l3) →
        pins b1.PIN = true → pins b2.PIN = true →
        b2.CHR ∉ escritos s (EnviarPulsacion c now pins s)
        ∧ ((∀ x ∈ l1 ++ l2 ++ l3, pins x.PIN = false) → c = 0 →
            escritos s (EnviarPulsacion c now pins s)
              = primerActivo pins cadenaPuntos ++ [b1.CHR])) := by
  have general : ∀ (l1 l2 l3 : List s_Boton) (b1 b2 : s_Boton),
      cadenaMomentaneos = l1 ++ b1 :: (l2 ++ b2 :: l3) →
      pins b1.PIN = true → pins b2.PIN = true →
      b2.CHR ∉ escritos s (EnviarPulsacion c now pins s)
      ∧ ((∀ x ∈ l1 ++ l2 ++ l3, pins x.PIN = false) → c = 0 →
          escritos s (EnviarPulsacion c now pins s)
            = primerActivo pins cadenaPuntos ++ [b1.CHR]) := by
    intro l1 l2 l3 b1 b2 hl h1 h2
    have hb2 : b2 ∈ cadenaMomentaneos := by rw [hl]; simp
    have hnd := cadenaMomentaneos_nodup
    rw [hl] at hnd
    rw [escritos_EnviarPulsacion, bytesDespacho, hl]
    constructor
    · intro hmem
      rcases List.mem_append.1 hmem with hA | hB
      · exact not_mem_primerActivo_puntos hb2 hA
      · split_ifs at hB with hc
        · obtain ⟨x, hx, hpx⟩ := primerActivo_before l1 (l2 ++ b2 :: l3) b1 h1
          rw [hpx, List.mem_singleton] at hB
          have hsplit : l1 ++ b1 :: (l2 ++ b2 :: l3) = (l1 ++ [b1]) ++ (l2 ++ b2 :: l3) := by simp
          rw [hsplit, List.map_append, List.nodup_append] at hnd
          refine hnd.2.2 (List.mem_map_of_mem (fun b : s_Boton => b.CHR) hx) ?_
          show x.CHR ∈ List.map (fun b : s_Boton => b.CHR) (l2 ++ b2 :: l3)
          rw [← hB]
          exact List.mem_map_of_mem (fun b : s_Boton => b.CHR) (by simp)
        · simp at hB
    · intro hothers hc
      rw [if_pos hc, primerActivo_append_inactive l1 _
        (fun x hx => hothers x (by simp [hx])), primerActivo_cons, if_pos h1]
  refine ⟨fun hg hj => ?_, general⟩
  have h := general [] [DEF_SSV, DEF_INI, DEF_INV] [DEF_SIR] DEF_SSL DEF_RST rfl hg hj
  refine ⟨h.1, fun hc => ?_⟩
  rw [escritos_EnviarPulsacion, bytesDespacho, if_pos hc]
  have hB : primerActivo pins cadenaMomentaneos = ['g'] := by
    rw [cadenaMomentaneos, primerActivo_cons, if_pos hg]
    rfl
  have hA : 'g' ∉ primerActivo pins cadenaPuntos :=
    not_mem_primerActivo_puntos (b := DEF_SSL) (by simp [cadenaMomentaneos])
  rw [hB, List.count_append, List.count_eq_zero_of_not_mem hA]
  simp

/-- Instance of C2: serve-local, reset and +1 local held on the first press:
exactly a then g is written, and no j. -/
theorem EnviarPulsacion_priority_witness :
    escritos setup (EnviarPulsacion 0 500 (fun p => p == 8 || p == 4 || p == 12) setup)
        = ['a', 'g']
    ∧ 'j' ∉ escritos setup (EnviarPulsacion 0 500 (fun p => p == 8 || p == 4 || p == 12) setup)
    ∧ (escritos setup
        (EnviarPulsacion 0 500 (fun p => p == 8 || p == 4 || p == 12) setup)).count 'g' = 1 := by
  have h := (EnviarPulsacion_priority 0 500 (fun p => p == 8 || p == 4 || p == 12) setup).1
    (by decide) (by decide)
  refine ⟨?_, h.1, h.2 rfl⟩
  rw [escritos_EnviarPulsacion]
  decide

/-! ### Arithmetic of the clock -/

theorem sumaUL_of_lt {a b : Nat} (h : a + b < ULONG) : sumaUL a b = a + b :=
  Nat.mod_eq_of_lt h

theorem restaUL_of_le {a b : Nat} (hab : b ≤ a) (ha : a < ULONG) : restaUL a b = a - b := by
  have hb : b < ULONG := lt_of_le_of_lt hab ha
  unfold restaUL
  rw [Nat.mod_eq_of_lt ha, Nat.mod_eq_of_lt hb]
  have h1 : a + (ULONG - b) = (a - b) + ULONG := by omega
  rw [h1, Nat.add_mod_right, Nat.mod_eq_of_lt (by omega)]

/-! ### Field-by-field effect of the routines -/

theorem aceptado_iff (now : Nat) (s : Estado) :
    aceptado now s = true ↔
      (now ≥ s.tiempoFuturo ∧ s.botonPulsado = true) ∧ ¬ restaUL now s.tiempoAnterior ≤ CST_FILTRO := by
  simp [aceptado]

theorem loopPulsacion_eq (now : Nat) (pins : Nat → Bool) (s : Estado) :
    loopPulsacion now pins s = if aceptado now s = true then pulsacionLegitima now pins s else s := by
  unfold loopPulsacion
  by_cases h1 : now ≥ s.tiempoFuturo ∧ s.botonPulsado = true <;>
    by_cases h2 : restaUL now s.tiempoAnterior ≤ CST_FILTRO <;>
    simp [aceptado_iff, h1, h2]

theorem loopPulsacion_of_not_aceptado {now : Nat} {s : Estado} (pins : Nat → Bool)
    (h : aceptado now s = false) : loopPulsacion now pins s = s := by
  rw [loopPulsacion_eq, h]
  simp

theorem loopPulsacion_of_aceptado {now : Nat} {s : Estado} (pins : Nat → Bool)
    (h : aceptado now s = true) : loopPulsacion now pins s = pulsacionLegitima now pins s := by
  rw [loopPulsacion_eq, h]
  simp

/-- The counter after a legitimate press: one more, stopping at 255. -/
theorem pulsacionLegitima_fields (now : Nat) (pins : Nat → Bool) (s : Estado) :
    (pulsacionLegitima now pins s).botonPulsado = s.botonPulsado
    ∧ (pulsacionLegitima now pins s).contador
        = (if s.contador ≤ 254 then (s.contador + 1) % 256 else s.contador)
    ∧ (pulsacionLegitima now pins s).tiempoAnterior = s.tiempoFuturo
    ∧ (pulsacionLegitima now pins s).tiempoFuturo
        = tiempoTrasRetardo now (if s.contador ≤ 254 then (s.contador + 1) % 256 else s.contador)
    ∧ (pulsacionLegitima now pins s).serie = s.serie ++ bytesDespacho s.contador pins := by
  obtain ⟨h1, h2, h3, h4, -⟩ := EnviarPulsacion_frame s.contador now pins s
  have h5 := EnviarPulsacion_serie s.contador now pins s
  simp only [pulsacionLegitima, h2]
  split_ifs <;> simp [h1, h2, h3, h5]

theorem loopBuzzer_fields (now : Nat) (s : Estado) :
    (loopBuzzer now s).botonPulsado = s.botonPulsado
    ∧ (loopBuzzer now s).contador = s.contador
    ∧ (loopBuzzer now s).tiempoAnterior = s.tiempoAnterior
    ∧ (loopBuzzer now s).tiempoFuturo = s.tiempoFuturo
    ∧ (loopBuzzer now s).serie = s.serie := by
  unfold loopBuzzer
  split_ifs <;> simp

/-- What a pass of `loop` leaves when no press is sent. -/
theorem loop_of_not_aceptado {now : Nat} {s : Estado} (pins : Nat → Bool)
    (h : aceptado now s = false) :
    (loop now pins s).botonPulsado = s.botonPulsado
    ∧ (loop now pins s).contador = s.contador
    ∧ (loop now pins s).tiempoAnterior = s.tiempoAnterior
    ∧ (loop now pins s).tiempoFuturo = s.tiempoFuturo
    ∧ (loop now pins s).serie = s.serie := by
  rw [loop, loopPulsacion_of_not_aceptado pins h]
  exact loopBuzzer_fields now s

/-- What a pass of `loop` leaves when a press is sent. -/
theorem loop_of_aceptado {now : Nat} {s : Estado} (pins : Nat → Bool)
    (h : aceptado now s = true) :
    (loop now pins s).botonPulsado = s.botonPulsado
    ∧ (loop now pins s).contador
        = (if s.contador ≤ 254 then (s.contador + 1) % 256 else s.contador)
    ∧ (loop now pins s).tiempoAnterior = s.tiempoFuturo
    ∧ (loop now pins s).tiempoFuturo
        = tiempoTrasRetardo now (if s.contador ≤ 254 then (s.contador + 1) % 256 else s.contador)
    ∧ (loop now pins s).serie = s.serie ++ bytesDespacho s.contador pins := by
  rw [loop, loopPulsacion_of_aceptado pins h]
  obtain ⟨h1, h2, h3, h4, h5⟩ := loopBuzzer_fields now (pulsacionLegitima now pins s)
  obtain ⟨g1, g2, g3, g4, g5⟩ := pulsacionLegitima_fields now pins s
  exact ⟨h1.trans g1, h2.trans g2, h3.trans g3, h4.trans g4, h5.trans g5⟩

theorem correr_nil (s : Estado) : correr s [] = s := rfl

theorem correr_cons (s : Estado) (e : Evento) (tr : List Evento) :
    correr s (e :: tr) = correr (paso s e) tr := rfl

theorem correr_append (s : Estado) (tr1 tr2 : List Evento) :
    correr s (tr1 ++ tr2) = correr (correr s tr1) tr2 := by
  simp [correr, List.foldl_append]

theorem serie_tras_soltar (now : Nat) (pins : Nat → Bool) (s : Estado)
    (h : pins DEF_INT.PIN = true) : (Pulsado now pins s).serie = s.serie ++ ['e'] := by
  simp [Pulsado, h, Serial_write, DEF_SIR_OFF]

/-! ### A held momentary button -/

/-- In every state reached from `setup` the counter is zero while the pressed
flag is clear. -/
theorem contador_zero_of_released (tr : List Evento) :
    ∀ u : Estado, (u.botonPulsado = false → u.contador = 0) →
      ((correr u tr).botonPulsado = false → (correr u tr).contador = 0) := by
  induction tr with
  | nil => intro u h; exact h
  | cons e tr ih =>
    intro u h
    rw [correr_cons]
    apply ih
    cases e with
    | flanco now pins =>
      show (Pulsado now pins u).botonPulsado = false → (Pulsado now pins u).contador = 0
      unfold Pulsado
      split_ifs <;> simp [Serial_write]
    | tick now pins =>
      show (loop now pins u).botonPulsado = false → (loop now pins u).contador = 0
      cases hacc : aceptado now u with
      | false =>
        obtain ⟨g1, g2, -⟩ := loop_of_not_aceptado pins hacc
        rw [g1, g2]
        exact h
      | true =>
        obtain ⟨g1, -⟩ := loop_of_aceptado pins hacc
        rw [g1]
        intro hb
        rw [aceptado_iff] at hacc
        rw [hacc.1.2] at hb
        exact absurd hb (by simp)

theorem momentaneo_ne_e : ∀ b ∈ cadenaMomentaneos, b.CHR ≠ 'e' := by
  decide

/-- Bytes written by a run of passes of `loop`, at each of which the scan of
chain (b) finds `b`, and of press edges: the byte of `b` appears once if the run
starts with counter zero and some pass sends a press, and not at all otherwise. -/
theorem count_retenido (b : s_Boton) (hb : b ∈ cadenaMomentaneos) (mid : List Evento) :
    ∀ u : Estado, (∀ e ∈ mid, retenido b e) →
      ∃ out, (correr u mid).serie = u.serie ++ out
        ∧ out.count b.CHR = (if u.contador = 0 ∧ 0 < aceptados u mid then 1 else 0) := by
  induction mid with
  | nil => intro u _; exact ⟨[], by simp [correr_nil], by simp [aceptados]⟩
  | cons e tr ih =>
    intro u h
    have he := h e (List.mem_cons_self _ _)
    cases e with
    | flanco now pins =>
      simp only [retenido] at he
      obtain ⟨out, ho1, ho2⟩ := ih (Pulsado now pins u)
        (fun e' he' => h e' (List.mem_cons_of_mem _ he'))
      have hstep : correr u (Evento.flanco now pins :: tr) = correr (Pulsado now pins u) tr := rfl
      have hs : (Pulsado now pins u).serie = u.serie := by simp [Pulsado, he]
      have hc : (Pulsado now pins u).contador = u.contador := by simp [Pulsado, he]
      rw [hstep]
      simp only [aceptados]
      exact ⟨out, by rw [ho1, hs], by rw [ho2, hc]⟩
    | tick now pins =>
      simp only [retenido] at he
      obtain ⟨out, ho1, ho2⟩ := ih (loop now pins u) (fun e' he' => h e' (List.mem_cons_of_mem _ he'))
      have hstep : correr u (Evento.tick now pins :: tr) = correr (loop now pins u) tr := rfl
      rw [hstep]
      simp only [aceptados]
      rcases Bool.eq_false_or_eq_true (aceptado now u) with hacc | hacc
      · obtain ⟨-, g2, -, -, g5⟩ := loop_of_aceptado pins hacc
        have hne : (loop now pins u).contador ≠ 0 := by
          rw [g2]
          split_ifs <;> omega
        refine ⟨bytesDespacho u.contador pins ++ out, by rw [ho1, g5, List.append_assoc], ?_⟩
        rw [List.count_append, ho2]
        simp only [hne, false_and, if_false, Nat.add_zero, hacc]
        have hA : b.CHR ∉ primerActivo pins cadenaPuntos := not_mem_primerActivo_puntos hb
        by_cases hc : u.contador = 0
        · simp [bytesDespacho, hc, he, List.count_eq_zero_of_not_mem hA]
        · simp [bytesDespacho, hc, List.count_eq_zero_of_not_mem hA]
      · obtain ⟨-, g2, -, -, g5⟩ := loop_of_not_aceptado pins hacc
        refine ⟨out, by rw [ho1, g5], ?_⟩
        rw [ho2, g2]
        simp [hacc]

set_option maxRecDepth 20000 in
/-- C3 as stated fails, in two ways. (1) Serve-local and reset are both held from
the press edge at 1000 to the release edge at 1300, and the pass of `loop` at
1120 sends a press: the pin of reset is active the whole time, and its byte j is
written zero times (the bytes written are g, then e on release). (2) Reset
alone is held; the press branch of the interrupt runs at 1000 and again at 1200
with no release in between (a bounce of the shared line), the passes at 1120
and 1700 both send a press: between the press edge at 1200 and the release edge
at 2000 the byte j is written zero times, the counter being 1 at that edge. -/
theorem held_reset_never_dispatched :
    (aceptados (Pulsado 1000 (fun p => p == 8 || p == 4) setup)
        [Evento.tick 1120 (fun p => p == 8 || p == 4),
         Evento.tick 1200 (fun p => p == 8 || p == 4)] = 1
      ∧ escritos setup (correr setup
          [Evento.flanco 1000 (fun p => p == 8 || p == 4),
           Evento.tick 1120 (fun p => p == 8 || p == 4),
           Evento.tick 1200 (fun p => p == 8 || p == 4),
           Evento.flanco 1300 (fun p => p == 2)]) = ['g', 'e']
      ∧ (escritos setup (correr setup
          [Evento.flanco 1000 (fun p => p == 8 || p == 4),
           Evento.tick 1120 (fun p => p == 8 || p == 4),
           Evento.tick 1200 (fun p => p == 8 || p == 4),
           Evento.flanco 1300 (fun p => p == 2)])).count 'j' = 0)
    ∧ (aceptados
          (Pulsado 1200 (fun p => p == 4)
            (correr setup [Evento.flanco 1000 (fun p => p == 4),
              Evento.tick 1120 (fun p => p == 4)]))
          [Evento.tick 1700 (fun p => p == 4)] = 1
      ∧ (escritos
          (correr setup [Evento.flanco 1000 (fun p => p == 4),
            Evento.tick 1120 (fun p => p == 4)])
          (correr
            (correr setup [Evento.flanco 1000 (fun p => p == 4),
              Evento.tick 1120 (fun p => p == 4)])
            [Evento.flanco 1200 (fun p => p == 4), Evento.tick 1700 (fun p => p == 4),
             Evento.flanco 2000 (fun p => p == 2)])).count 'j' = 0) := by
  decide

/-- C3, amended: take a press edge that finds the pressed flag clear (as after
`setup` or a release edge) in a state reached from `setup`, then any passes of
`loop` and further press edges, with the momentary button `b` active and no
momentary button before it in the chain active at each of those passes, at
least one of them sending a press, then the release edge. Between the two edges
the byte of `b` is written exactly once, however many passes there are and
whatever their times. -/
theorem held_momentary_once (pre mid : List Evento) (tP tR : Nat) (pinsP pinsR : Nat → Bool)
    (b : s_Boton) (hb : b ∈ cadenaMomentaneos)
    (hrel : (correr setup pre).botonPulsado = false)
    (hP : pinsP DEF_INT.PIN = false) (hR : pinsR DEF_INT.PIN = true)
    (hmid : ∀ e ∈ mid, retenido b e)
    (hacc : 0 < aceptados (Pulsado tP pinsP (correr setup pre)) mid) :
    (escritos (correr setup pre)
      (correr (correr setup pre)
        (Evento.flanco tP pinsP :: (mid ++ [Evento.flanco tR pinsR])))).count b.CHR = 1 := by
  have hc0 : (correr setup pre).contador = 0 :=
    contador_zero_of_released pre setup (fun _ => rfl) hrel
  have hPc : (Pulsado tP pinsP (correr setup pre)).contador = 0 := by
    simp [Pulsado, hP, hc0]
  have hPs : (Pulsado tP pinsP (correr setup pre)).serie = (correr setup pre).serie := by
    simp [Pulsado, hP]
  obtain ⟨out, ho1, ho2⟩ := count_retenido b hb mid (Pulsado tP pinsP (correr setup pre)) hmid
  rw [if_pos ⟨hPc, hacc⟩] at ho2
  have hfin : (correr (correr setup pre)
      (Evento.flanco tP pinsP :: (mid ++ [Evento.flanco tR pinsR]))).serie
      = (correr setup pre).serie ++ (out ++ ['e']) := by
    rw [correr_cons, correr_append, correr_cons, correr_nil]
    have hp1 : paso (correr setup pre) (Evento.flanco tP pinsP)
        = Pulsado tP pinsP (correr setup pre) := rfl
    have hp2 : ∀ u, paso u (Evento.flanco tR pinsR) = Pulsado tR pinsR u := fun _ => rfl
    rw [hp1, hp2, serie_tras_soltar tR pinsR _ hR, ho1, hPs, List.append_assoc]
  rw [escritos_of_append hfin, List.count_append, ho2]
  have : b.CHR ≠ 'e' := momentaneo_ne_e b hb
  simp [this]

set_option maxRecDepth 100000 in
/-- Instance of the amended C3: reset alone held from the press at 1000 to the
release at 9000, with passes of `loop` at 1120 (sent), 1700 (sent), 5000 (sent)
and 8999 (sent), and a second run of the press branch at 1200. -/
theorem held_momentary_once_witness :
    (escritos (correr setup [])
      (correr (correr setup [])
        (Evento.flanco 1000 (fun p => p == 4) ::
          ([Evento.tick 1120 (fun p => p == 4), Evento.flanco 1200 (fun p => p == 4),
            Evento.tick 1700 (fun p => p == 4), Evento.tick 5000 (fun p => p == 4),
            Evento.tick 8999 (fun p => p == 4)] ++
           [Evento.flanco 9000 (fun p => p == 2)])))).count DEF_RST.CHR = 1 :=
  held_momentary_once [] _ 1000 9000 _ _ DEF_RST (by decide) (by decide) (by decide) (by decide)
    (by
      intro e he
      simp only [List.mem_cons, List.mem_singleton, List.not_mem_nil, or_false] at he
      rcases he with rfl | rfl | rfl | rfl | rfl
      · show primerActivo (fun p => p == 4) cadenaMomentaneos = [DEF_RST.CHR]
        decide
      · show (fun p => p == 4) DEF_INT.PIN = false
        decide
      · show primerActivo (fun p => p == 4) cadenaMomentaneos = [DEF_RST.CHR]
        decide
      · show primerActivo (fun p => p == 4) cadenaMomentaneos = [DEF_RST.CHR]
        decide
      · show primerActivo (fun p => p == 4) cadenaMomentaneos = [DEF_RST.CHR]
        decide)
    (by decide)

/-! ### Release edge -/

/-- C4: on the release edge `Pulsado` writes the single byte e, clears the
pressed flag and the counter, and leaves the two time stamps and the buzzer
state as they were; this for every state, so also when nothing was dispatched
since the press edge. -/
theorem Pulsado_release (now : Nat) (pins : Nat → Bool) (s : Estado)
    (h : pins DEF_INT.PIN = true) :
    (Pulsado now pins s).serie = s.serie ++ ['e']
    ∧ escritos s (Pulsado now pins s) = ['e']
    ∧ (Pulsado now pins s).botonPulsado = false
    ∧ (Pulsado now pins s).contador = 0
    ∧ (Pulsado now pins s).tiempoFuturo = s.tiempoFuturo
    ∧ (Pulsado now pins s).tiempoAnterior = s.tiempoAnterior
    ∧ (Pulsado now pins s).sonando = s.sonando
    ∧ (Pulsado now pins s).tiempoBeep = s.tiempoBeep
    ∧ (Pulsado now pins s).buz = s.buz := by
  have hs := serie_tras_soltar now pins s h
  refine ⟨hs, escritos_of_append hs, ?_, ?_, ?_, ?_, ?_, ?_, ?_⟩ <;>
    simp [Pulsado, h, Serial_write]

/-- Instance of C4: a press edge right after `setup` and a release edge 10 ms
later, with no pass of `loop` in between: e is written though nothing was
dispatched. -/
theorem Pulsado_release_witness :
    escritos (Pulsado 1000 (fun _ => false) setup)
        (Pulsado 1010 (fun p => p == 2) (Pulsado 1000 (fun _ => false) setup)) = ['e']
    ∧ (Pulsado 1010 (fun p => p == 2) (Pulsado 1000 (fun _ => false) setup)).contador = 0
    ∧ (Pulsado 1010 (fun p => p == 2) (Pulsado 1000 (fun _ => false) setup)).tiempoFuturo = 1120 :=
  have h := Pulsado_release 1010 (fun p => p == 2) (Pulsado 1000 (fun _ => false) setup)
    (by decide)
  ⟨h.2.1, h.2.2.2.1, h.2.2.2.2.1.trans (by decide)⟩

/-! ### Press and release inside the debounce window -/

theorem not_aceptado_of_lt {now : Nat} {s : Estado} (h : now < s.tiempoFuturo) :
    aceptado now s = false := by
  have : ¬ (now ≥ s.tiempoFuturo) := by omega
  simp [aceptado, this]

theorem not_aceptado_of_not_pulsado {now : Nat} {s : Estado} (h : s.botonPulsado = false) :
    aceptado now s = false := by
  simp [aceptado, h]

theorem correr_ticks_tempranos (a : Nat) (ticks : List Evento) :
    ∀ u : Estado, (∀ e ∈ ticks, esTickEntre a u.tiempoFuturo e) →
      (correr u ticks).serie = u.serie
      ∧ (correr u ticks).tiempoFuturo = u.tiempoFuturo
      ∧ (correr u ticks).tiempoAnterior = u.tiempoAnterior
      ∧ (correr u ticks).contador = u.contador
      ∧ (correr u ticks).botonPulsado = u.botonPulsado := by
  induction ticks with
  | nil => intro u _; simp [correr_nil]
  | cons e tr ih =>
    intro u h
    have he := h e (List.mem_cons_self _ _)
    cases e with
    | flanco now pins => exact absurd he (by simp [esTickEntre])
    | tick now pins =>
      simp only [esTickEntre] at he
      obtain ⟨g1, g2, g3, g4, g5⟩ := loop_of_not_aceptado pins (not_aceptado_of_lt he.2)
      rw [correr_cons]
      have hu : paso u (Evento.tick now pins) = loop now pins u := rfl
      rw [hu]
      obtain ⟨k1, k2, k3, k4, k5⟩ := ih (loop now pins u)
        (fun e' he' => by rw [g4]; exact h e' (List.mem_cons_of_mem _ he'))
      exact ⟨k1.trans g5, k2.trans g4, k3.trans g3, k4.trans g2, k5.trans g1⟩

/-- C5: from any state, a press edge at `t0` (with `t0 + 120` inside the clock
range), then any number of passes of `loop` at times in `[t0, t0 + 120)` with
any pin levels, then a release edge (whenever it comes): the only byte written
is e, so no command byte is dispatched. -/
theorem press_release_in_window (s : Estado) (t0 tR : Nat) (pinsP pinsR : Nat → Bool)
    (ticks : List Evento)
    (hov : t0 + CST_FILTRO < ULONG)
    (hP : pinsP DEF_INT.PIN = false) (hR : pinsR DEF_INT.PIN = true)
    (hticks : ∀ e ∈ ticks, esTickEntre t0 (t0 + CST_FILTRO) e) :
    escritos s (correr s (Evento.flanco t0 pinsP :: (ticks ++ [Evento.flanco tR pinsR])))
      = ['e'] := by
  have hF : (Pulsado t0 pinsP s).tiempoFuturo = t0 + CST_FILTRO := by
    simp [Pulsado, hP, sumaUL_of_lt hov]
  have hS : (Pulsado t0 pinsP s).serie = s.serie := by
    simp [Pulsado, hP]
  have hrun := correr_ticks_tempranos t0 ticks (Pulsado t0 pinsP s) (by rw [hF]; exact hticks)
  rw [correr_cons, correr_append, correr_cons, correr_nil]
  apply escritos_of_append
  have hp1 : paso s (Evento.flanco t0 pinsP) = Pulsado t0 pinsP s := rfl
  rw [hp1]
  have hp2 : ∀ u, paso u (Evento.flanco tR pinsR) = Pulsado tR pinsR u := fun _ => rfl
  rw [hp2, (serie_tras_soltar tR pinsR _ hR), hrun.1, hS]

/-- Instance of C5: press at 1000 with +1 local and reset held, passes of `loop`
at 1000, 1060 and 1119, release at 1119. -/
theorem press_release_in_window_witness :
    escritos setup (correr setup
      (Evento.flanco 1000 (fun p => p == 12 || p == 4) ::
        ([Evento.tick 1000 (fun p => p == 12 || p == 4),
          Evento.tick 1060 (fun p => p == 12 || p == 4),
          Evento.tick 1119 (fun p => p == 12 || p == 4)] ++
        [Evento.flanco 1119 (fun p => p == 2)]))) = ['e'] :=
  press_release_in_window setup 1000 1119 _ _ _ (by decide) (by decide) (by decide)
    (by simp [esTickEntre, CST_FILTRO])

/-! ### The repetition engine -/

/-- C6: the first statement of `loop` sends a press only if the button is
pressed, `now >= tiempoFuturo` and `now - tiempoAnterior > 120` (the subtraction
being that of `unsigned long`, which is the plain one when `tiempoAnterior <= now`
inside the clock range); in every other case the state is left as it was: no
byte is written and the pressed flag, the counter and the two time stamps keep
their values. -/
theorem loopPulsacion_guard (now : Nat) (pins : Nat → Bool) (s : Estado) :
    ((s.botonPulsado = true ∧ now ≥ s.tiempoFuturo ∧ restaUL now s.tiempoAnterior > CST_FILTRO) →
        loopPulsacion now pins s = pulsacionLegitima now pins s)
    ∧ (¬ (s.botonPulsado = true ∧ now ≥ s.tiempoFuturo ∧ restaUL now s.tiempoAnterior > CST_FILTRO) →
        loopPulsacion now pins s = s
        ∧ escritos s (loopPulsacion now pins s) = []
        ∧ (loopPulsacion now pins s).botonPulsado = s.botonPulsado
        ∧ (loopPulsacion now pins s).contador = s.contador
        ∧ (loopPulsacion now pins s).tiempoFuturo = s.tiempoFuturo
        ∧ (loopPulsacion now pins s).tiempoAnterior = s.tiempoAnterior)
    ∧ (escritos s (loopPulsacion now pins s) ≠ [] →
        s.botonPulsado = true ∧ now ≥ s.tiempoFuturo ∧ restaUL now s.tiempoAnterior > CST_FILTRO)
    ∧ CST_FILTRO = 120
    ∧ (s.tiempoAnterior ≤ now → now < ULONG →
        restaUL now s.tiempoAnterior = now - s.tiempoAnterior) := by
  have hiff : aceptado now s = true ↔
      (s.botonPulsado = true ∧ now ≥ s.tiempoFuturo ∧ restaUL now s.tiempoAnterior > CST_FILTRO) := by
    rw [aceptado_iff]
    constructor
    · rintro ⟨⟨h1, h2⟩, h3⟩
      exact ⟨h2, h1, not_le.1 h3⟩
    · rintro ⟨h1, h2, h3⟩
      exact ⟨⟨h2, h1⟩, not_le.2 h3⟩
  have hno : ¬ (s.botonPulsado = true ∧ now ≥ s.tiempoFuturo ∧
      restaUL now s.tiempoAnterior > CST_FILTRO) → loopPulsacion now pins s = s := by
    intro h
    apply loopPulsacion_of_not_aceptado
    rw [← hiff] at h
    simpa using h
  refine ⟨fun h => loopPulsacion_of_aceptado pins (hiff.2 h), fun h => ?_, fun h => ?_, rfl,
    fun h1 h2 => restaUL_of_le h1 h2⟩
  · rw [hno h]
    exact ⟨rfl, by simp [escritos], rfl, rfl, rfl, rfl⟩
  · by_contra hc
    rw [hno hc] at h
    exact h (by simp [escritos])

/-- Instance of C6: right after a press at clock 0 the pass of `loop` at 120 is
eligible but discarded by the filter (`120 - 0 <= 120`), with +1 local held. -/
theorem loopPulsacion_guard_witness :
    (Pulsado 0 (fun p => p == 12) setup).botonPulsado = true
    ∧ 120 ≥ (Pulsado 0 (fun p => p == 12) setup).tiempoFuturo
    ∧ loopPulsacion 120 (fun p => p == 12) (Pulsado 0 (fun p => p == 12) setup)
        = Pulsado 0 (fun p => p == 12) setup :=
  ⟨by decide, by decide,
    ((loopPulsacion_guard 120 (fun p => p == 12) (Pulsado 0 (fun p => p == 12) setup)).2.1
      (by decide)).1⟩

/-- C7, the firmware at a concrete pass: press edge at 1000 after `setup`
(`tiempoFuturo` becomes 1120), +1 local held, first pass of `loop` past the
eligible instant at clock 1121. The press is sent, and `tiempoAnterior` becomes
1120, the former `tiempoFuturo`, not 1121, the time of the pass. -/
theorem tiempoAnterior_after_late_pass :
    aceptado 1121 (Pulsado 1000 (fun p => p == 12) setup) = true
    ∧ escritos (Pulsado 1000 (fun p => p == 12) setup)
        (loop 1121 (fun p => p == 12) (Pulsado 1000 (fun p => p == 12) setup)) = ['a']
    ∧ (loop 1121 (fun p => p == 12) (Pulsado 1000 (fun p => p == 12) setup)).tiempoAnterior = 1120
    ∧ (loop 1121 (fun p => p == 12) (Pulsado 1000 (fun p => p == 12) setup)).tiempoAnterior ≠ 1121 := by
  have hacc : aceptado 1121 (Pulsado 1000 (fun p => p == 12) setup) = true := by decide
  obtain ⟨-, -, h3, -, h5⟩ := loop_of_aceptado (fun p => p == 12) hacc
  have hF : (Pulsado 1000 (fun p => p == 12) setup).tiempoFuturo = 1120 := by decide
  refine ⟨hacc, ?_, h3.trans hF, ?_⟩
  · rw [escritos_of_append h5]
    decide
  · rw [h3, hF]
    decide

/-! ### The acceleration curve -/

/-- Over the reals, with `pow` the real power, `Retardo` is the greater of 50 and
`700 / sqrt (n + 1)`. -/
theorem Retardo_real (n : Nat) :
    Retardo (fun x y : ℝ => x ^ y) n = max 50 (700 / Real.sqrt ((n : ℝ) + 1)) := by
  have h1 : ((n : ℝ) * 1.0 + 1) ^ (CST_FCT_ACCEL : ℝ) = Real.sqrt ((n : ℝ) + 1) := by
    rw [Real.sqrt_eq_rpow]
    simp only [CST_FCT_ACCEL]
    norm_num
  simp only [Retardo, h1, CST_RETARDO, CST_LIM_ACCEL, Nat.cast_ofNat, ge_iff_le]
  split_ifs with h
  · exact (max_eq_right h).symm
  · exact (max_eq_left (le_of_not_le h)).symm

theorem le_cociente_iff (n k : Nat) :
    (k : ℝ) ≤ 700 / Real.sqrt ((n : ℝ) + 1) ↔ k * k * (n + 1) ≤ 700 * 700 := by
  have hm : (0 : ℝ) < (n : ℝ) + 1 := by positivity
  have hs : 0 < Real.sqrt ((n : ℝ) + 1) := Real.sqrt_pos.2 hm
  rw [le_div_iff₀ hs]
  have h2 : (k : ℝ) * Real.sqrt ((n : ℝ) + 1) = Real.sqrt ((k : ℝ) ^ 2 * ((n : ℝ) + 1)) := by
    rw [Real.sqrt_mul (sq_nonneg _), Real.sqrt_sq (Nat.cast_nonneg k)]
  rw [h2, Real.sqrt_le_left (by norm_num)]
  have h3 : ((k : ℝ) ^ 2 * ((n : ℝ) + 1) ≤ 700 ^ 2) ↔
      (((k * k * (n + 1) : ℕ) : ℝ) ≤ ((700 * 700 : ℕ) : ℝ)) := by
    push_cast
    constructor <;> intro h <;> nlinarith [h]
  rw [h3, Nat.cast_le]

/-- The integer delay used by the state machine is the whole part of the real
`Retardo`. -/
theorem RetardoTrunc_eq_floor (n : Nat) :
    RetardoTrunc n = ⌊Retardo (fun x y : ℝ => x ^ y) n⌋₊ := by
  rw [Retardo_real]
  have hmax : ⌊max (50 : ℝ) (700 / Real.sqrt ((n : ℝ) + 1))⌋₊
      = max ⌊(50 : ℝ)⌋₊ ⌊700 / Real.sqrt ((n : ℝ) + 1)⌋₊ :=
    (Nat.floor_mono (α := ℝ)).map_max
  have h50 : ⌊(50 : ℝ)⌋₊ = 50 := by
    simp
  rw [hmax, h50]
  have hy : (0 : ℝ) ≤ 700 / Real.sqrt ((n : ℝ) + 1) := by positivity
  have key : ∀ j : ℕ, j ≤ ⌊700 / Real.sqrt ((n : ℝ) + 1)⌋₊ ↔ j * j * (n + 1) ≤ 700 * 700 := by
    intro j
    rw [Nat.le_floor_iff hy, le_cociente_iff]
  have hfg : Nat.findGreatest (fun k => k * k * (n + 1) ≤ CST_RETARDO * CST_RETARDO) CST_RETARDO
      = ⌊700 / Real.sqrt ((n : ℝ) + 1)⌋₊ := by
    rw [Nat.findGreatest_eq_iff]
    simp only [CST_RETARDO]
    refine ⟨?_, fun _ => (key _).1 le_rfl, fun j hj _ hP => ?_⟩
    · have h := (key ⌊700 / Real.sqrt ((n : ℝ) + 1)⌋₊).1 le_rfl
      by_contra hlt
      push_neg at hlt
      have : 701 * 701 ≤ ⌊700 / Real.sqrt ((n : ℝ) + 1)⌋₊ * ⌊700 / Real.sqrt ((n : ℝ) + 1)⌋₊ :=
        Nat.mul_le_mul hlt hlt
      nlinarith
    · exact absurd ((key j).2 hP) (not_le.2 hj)
  rw [RetardoTrunc, hfg]
  rfl

/-! ### The binary32 sum of `loop` -/

theorem bitsSobrantes_le {x j : Nat} (h : x < 2 ^ (24 + j)) : bitsSobrantes x ≤ j := by
  unfold bitsSobrantes
  by_contra hc
  push_neg at hc
  have hne : Nat.findGreatest (fun k => 2 ^ (23 + k) ≤ x) 64 ≠ 0 := by omega
  have hP : 2 ^ (23 + Nat.findGreatest (fun k => 2 ^ (23 + k) ≤ x) 64) ≤ x :=
    (Nat.findGreatest_eq_iff.1 (rfl :
      Nat.findGreatest (fun k => 2 ^ (23 + k) ≤ x) 64 = _)).2.1 hne
  have hle : 2 ^ (24 + j) ≤ 2 ^ (23 + Nat.findGreatest (fun k => 2 ^ (23 + k) ≤ x) 64) :=
    Nat.pow_le_pow_right (by decide) (by omega)
  omega

theorem redondear24_div (I f j : Nat) (hj : j ≤ 40)
    (hx : I * UNIDAD + f < 2 ^ (24 + j)) (hgap : 2 * f + 2 ^ j < 2 * UNIDAD) :
    redondear24 (I * UNIDAD + f) / UNIDAD = I := by
  have hk : bitsSobrantes (I * UNIDAD + f) ≤ j := bitsSobrantes_le hx
  generalize hkdef : bitsSobrantes (I * UNIDAD + f) = k at hk
  have hU : UNIDAD = 2 ^ (40 - k) * 2 ^ k := by
    rw [← pow_add, UNIDAD]
    congr 1
    omega
  have hPJ : 2 ^ k ≤ 2 ^ j := Nat.pow_le_pow_right (by decide) hk
  have hPpos : 0 < 2 ^ k := by positivity
  have hUpos : 0 < UNIDAD := by unfold UNIDAD; positivity
  have hdm := Nat.div_add_mod (I * UNIDAD + f) (2 ^ k)
  have hr := Nat.mod_lt (I * UNIDAD + f) hPpos
  have hlow : I * UNIDAD ≤ (I * UNIDAD + f) / 2 ^ k * 2 ^ k := by
    have h1 : I * 2 ^ (40 - k) ≤ (I * UNIDAD + f) / 2 ^ k := by
      rw [Nat.le_div_iff_mul_le hPpos]
      calc I * 2 ^ (40 - k) * 2 ^ k = I * UNIDAD := by rw [Nat.mul_assoc, ← hU]
        _ ≤ I * UNIDAD + f := Nat.le_add_right _ _
    calc I * UNIDAD = I * 2 ^ (40 - k) * 2 ^ k := by rw [Nat.mul_assoc, ← hU]
      _ ≤ _ := Nat.mul_le_mul_right _ h1
  have hcomm : 2 ^ k * ((I * UNIDAD + f) / 2 ^ k) = (I * UNIDAD + f) / 2 ^ k * 2 ^ k :=
    Nat.mul_comm _ _
  have hsucc : ((I * UNIDAD + f) / 2 ^ k + 1) * 2 ^ k
      = (I * UNIDAD + f) / 2 ^ k * 2 ^ k + 2 ^ k := by ring
  have hI1 : (I + 1) * UNIDAD = I * UNIDAD + UNIDAD := by ring
  apply Nat.div_eq_of_lt_le
  · unfold redondear24
    simp only [hkdef]
    split_ifs <;> omega
  · unfold redondear24
    simp only [hkdef]
    rw [hI1]
    split_ifs <;> omega

theorem floatDeULong_exacto {n : Nat} (h : n < 2 ^ 24) : floatDeULong n = n * UNIDAD := by
  have hx : n * UNIDAD < 2 ^ (24 + 40) := by
    have hU : 0 < UNIDAD := by unfold UNIDAD; positivity
    have : n * UNIDAD < 2 ^ 24 * UNIDAD := Nat.mul_lt_mul_of_pos_right h hU
    rw [pow_add]
    exact this
  have hk : bitsSobrantes (n * UNIDAD) ≤ 40 := bitsSobrantes_le hx
  unfold floatDeULong redondear24
  generalize bitsSobrantes (n * UNIDAD) = k at hk
  have hU : UNIDAD = 2 ^ (40 - k) * 2 ^ k := by
    rw [← pow_add, UNIDAD]
    congr 1
    omega
  have hdvd : 2 ^ k ∣ n * UNIDAD := ⟨n * 2 ^ (40 - k), by rw [hU]; ring⟩
  have hmod : n * UNIDAD % 2 ^ k = 0 := Nat.mod_eq_zero_of_dvd hdvd
  have hPpos : 0 < 2 ^ k := by positivity
  simp only [hmod, Nat.mul_zero, hPpos, if_true]
  exact Nat.div_mul_cancel hdvd

theorem tiempoTrasRetardo_exacto (now c p : Nat) (hp : p ≤ 24)
    (hlt : now + RetardoF c / UNIDAD < 2 ^ p)
    (hgap : 2 * (RetardoF c % UNIDAD) + 2 ^ (16 + p) < 2 * UNIDAD) :
    tiempoTrasRetardo now c = now + RetardoF c / UNIDAD := by
  have hUpos : 0 < UNIDAD := by unfold UNIDAD; positivity
  have h24 : (2 : Nat) ^ p ≤ 2 ^ 24 := Nat.pow_le_pow_right (by decide) hp
  have hnow : now < 2 ^ 24 :=
    lt_of_le_of_lt (Nat.le_add_right _ _) (lt_of_lt_of_le hlt h24)
  have hsplit : now * UNIDAD + RetardoF c
      = (now + RetardoF c / UNIDAD) * UNIDAD + RetardoF c % UNIDAD := by
    have := Nat.div_add_mod (RetardoF c) UNIDAD
    rw [Nat.add_mul]
    rw [Nat.mul_comm] at this
    omega
  have hx : (now + RetardoF c / UNIDAD) * UNIDAD + RetardoF c % UNIDAD < 2 ^ (24 + (16 + p)) := by
    have h1 : RetardoF c % UNIDAD < UNIDAD := Nat.mod_lt _ hUpos
    have h2 : (now + RetardoF c / UNIDAD + 1) * UNIDAD ≤ 2 ^ p * UNIDAD :=
      Nat.mul_le_mul_right _ hlt
    have h3 : (2 : Nat) ^ (24 + (16 + p)) = 2 ^ p * UNIDAD := by
      rw [UNIDAD, ← pow_add]
      congr 1
      omega
    rw [h3]
    have h4 : (now + RetardoF c / UNIDAD + 1) * UNIDAD
        = (now + RetardoF c / UNIDAD) * UNIDAD + UNIDAD := by ring
    omega
  have hdiv := redondear24_div (now + RetardoF c / UNIDAD) (RetardoF c % UNIDAD) (16 + p)
    (by omega) hx hgap
  unfold tiempoTrasRetardo
  rw [floatDeULong_exacto hnow, hsplit, hdiv]
  apply Nat.mod_eq_of_lt
  have : (2 : Nat) ^ 24 < ULONG := by decide
  omega

set_option maxRecDepth 1000000 in
set_option maxHeartbeats 4000000 in
/-- For every counter from 1 to 255: the whole part of the `float` delay, bracketed
as the whole part of `700 / sqrt (c + 1)` floored at 50, and the room its
fraction leaves below the next whole number. -/
theorem RetardoF_datos : ∀ c, c < 256 → 1 ≤ c →
    50 ≤ RetardoF c / UNIDAD ∧ RetardoF c / UNIDAD ≤ 700
    ∧ (RetardoF c / UNIDAD = 50 ∨
        RetardoF c / UNIDAD * (RetardoF c / UNIDAD) * (c + 1) ≤ 700 * 700)
    ∧ 700 * 700 < (RetardoF c / UNIDAD + 1) * (RetardoF c / UNIDAD + 1) * (c + 1)
    ∧ 2 * (RetardoF c % UNIDAD) + 2 ^ (16 + 16) < 2 * UNIDAD := by
  decide

set_option maxRecDepth 1000000 in
set_option maxHeartbeats 4000000 in
theorem RetardoF_datos_33 : ∀ c, c < 34 → 1 ≤ c →
    2 * (RetardoF c % UNIDAD) + 2 ^ (16 + 18) < 2 * UNIDAD := by
  decide

set_option maxRecDepth 1000000 in
theorem RetardoF_datos_1 :
    RetardoF 1 / UNIDAD = 494 ∧ 2 * (RetardoF 1 % UNIDAD) + 2 ^ (16 + 19) < 2 * UNIDAD := by
  decide

theorem RetardoTrunc_of_bracket {c t : Nat} (h50 : 50 ≤ t) (h700 : t ≤ 700)
    (hlo : t = 50 ∨ t * t * (c + 1) ≤ 700 * 700)
    (hhi : 700 * 700 < (t + 1) * (t + 1) * (c + 1)) : RetardoTrunc c = t := by
  have hg : Nat.findGreatest (fun k => k * k * (c + 1) ≤ CST_RETARDO * CST_RETARDO) CST_RETARDO
      ≤ t := by
    by_contra hc
    push_neg at hc
    have hne : Nat.findGreatest (fun k => k * k * (c + 1) ≤ CST_RETARDO * CST_RETARDO)
        CST_RETARDO ≠ 0 := by omega
    have hP := (Nat.findGreatest_eq_iff.1 (rfl :
      Nat.findGreatest (fun k => k * k * (c + 1) ≤ CST_RETARDO * CST_RETARDO) CST_RETARDO
        = _)).2.1 hne
    generalize Nat.findGreatest (fun k => k * k * (c + 1) ≤ CST_RETARDO * CST_RETARDO)
      CST_RETARDO = g at hc hP
    have h1 : (t + 1) * (t + 1) ≤ g * g := Nat.mul_le_mul hc hc
    have h2 : (t + 1) * (t + 1) * (c + 1) ≤ g * g * (c + 1) := Nat.mul_le_mul_right _ h1
    have h3 : g * g * (c + 1) ≤ 700 * 700 := hP
    omega
  unfold RetardoTrunc
  rcases hlo with rfl | hlo
  · exact max_eq_left hg
  · have hle : t ≤ Nat.findGreatest (fun k => k * k * (c + 1) ≤ CST_RETARDO * CST_RETARDO)
        CST_RETARDO := Nat.le_findGreatest h700 hlo
    rw [le_antisymm hg hle]
    exact max_eq_right h50

/-- The whole part of the `float` delay is the whole part of the real one. -/
theorem RetardoF_div {c : Nat} (h1 : 1 ≤ c) (h : c ≤ 255) :
    RetardoF c / UNIDAD = RetardoTrunc c := by
  obtain ⟨a1, a2, a3, a4, -⟩ := RetardoF_datos c (by omega) h1
  exact (RetardoTrunc_of_bracket a1 a2 a3 a4).symm

theorem RetardoTrunc_le_700 (n : Nat) : RetardoTrunc n ≤ 700 :=
  max_le (by decide) (Nat.findGreatest_le _)

/-- In the first 65 seconds of the clock the `float` sum is exact for every
counter: `tiempoFuturo` is `now` plus the whole part of the delay. -/
theorem tiempoTrasRetardo_eq {now c : Nat} (h1 : 1 ≤ c) (h : c ≤ 255)
    (hnow : now + 700 < 2 ^ 16) : tiempoTrasRetardo now c = now + RetardoTrunc c := by
  have hR := RetardoTrunc_le_700 c
  rw [← RetardoF_div h1 h] at hR ⊢
  exact tiempoTrasRetardo_exacto now c 16 (by decide) (by omega)
    (RetardoF_datos c (by omega) h1).2.2.2.2

/-- For the counters up to 33 the `float` sum is exact in the first 262 seconds. -/
theorem tiempoTrasRetardo_eq_33 {now c : Nat} (h1 : 1 ≤ c) (h : c ≤ 33)
    (hnow : now + 700 < 2 ^ 18) : tiempoTrasRetardo now c = now + RetardoTrunc c := by
  have hR := RetardoTrunc_le_700 c
  rw [← RetardoF_div h1 (by omega)] at hR ⊢
  exact tiempoTrasRetardo_exacto now c 18 (by decide) (by omega)
    (RetardoF_datos_33 c (by omega) h1)

/-- For counter 1 the `float` sum is exact as long as it stays below `2 ^ 19`. -/
theorem tiempoTrasRetardo_eq_1 {now : Nat} (hnow : now + 495 ≤ 2 ^ 19) :
    tiempoTrasRetardo now 1 = now + 494 := by
  have h := tiempoTrasRetardo_exacto now 1 19 (by decide)
    (by rw [RetardoF_datos_1.1]; omega) RetardoF_datos_1.2
  rw [h, RetardoF_datos_1.1]

set_option maxRecDepth 100000 in
/-- C8 as stated fails: press edge at 1000 after `setup`, +1 local held, pass of
`loop` at 1120. The press is sent with counter 0, and `tiempoFuturo` becomes
1614 = 1120 + 494, not 1120 + 700. Later in the life of the clock the `float`
sum rounds: after a press edge at 523674 the pass at 523794 sends the press with
counter 0 and sets `tiempoFuturo` to 524289 = 523794 + 495. -/
theorem first_repeat_not_base_delay :
    (Pulsado 1000 (fun p => p == 12) setup).contador = 0
    ∧ aceptado 1120 (Pulsado 1000 (fun p => p == 12) setup) = true
    ∧ (loop 1120 (fun p => p == 12) (Pulsado 1000 (fun p => p == 12) setup)).tiempoFuturo = 1614
    ∧ RetardoTrunc 0 = 700
    ∧ (loop 1120 (fun p => p == 12) (Pulsado 1000 (fun p => p == 12) setup)).tiempoFuturo
        ≠ 1120 + RetardoTrunc 0
    ∧ (Pulsado 523674 (fun p => p == 12) setup).contador = 0
    ∧ aceptado 523794 (Pulsado 523674 (fun p => p == 12) setup) = true
    ∧ (loop 523794 (fun p => p == 12) (Pulsado 523674 (fun p => p == 12) setup)).tiempoFuturo
        = 523794 + 495 := by
  have hacc : aceptado 1120 (Pulsado 1000 (fun p => p == 12) setup) = true := by decide
  obtain ⟨-, -, -, h4, -⟩ := loop_of_aceptado (fun p => p == 12) hacc
  have hacc' : aceptado 523794 (Pulsado 523674 (fun p => p == 12) setup) = true := by decide
  obtain ⟨-, -, -, h4', -⟩ := loop_of_aceptado (fun p => p == 12) hacc'
  have h0 : RetardoTrunc 0 = 700 := by decide
  have hF : (loop 1120 (fun p => p == 12) (Pulsado 1000 (fun p => p == 12) setup)).tiempoFuturo
      = 1614 := by
    rw [h4]
    decide
  refine ⟨by decide, hacc, hF, h0, ?_, by decide, hacc', ?_⟩
  · rw [hF, h0]
    decide
  · rw [h4']
    decide

/-- C8, amended: a pass of `loop` that sends a press with counter `n` sets
`tiempoFuturo` to the `float` sum of `now` and `Retardo` at the counter after
its increment (`n + 1` for `n <= 254`, 255 for `n = 255`), truncated to
`unsigned long`. While `now + 700 < 65536` this is `now` plus the whole part
of that `Retardo`; for the first press after a release (`n = 0`) it is
`now + 494`, the whole part of `700 / sqrt 2`, whenever `now + 495 <= 524288`. -/
theorem accepted_tick_tiempoFuturo (now : Nat) (pins : Nat → Bool) (s : Estado)
    (h : aceptado now s = true) :
    (s.contador ≤ 254 → (loop now pins s).tiempoFuturo
        = tiempoTrasRetardo now (s.contador + 1))
    ∧ (s.contador = 255 → (loop now pins s).tiempoFuturo = tiempoTrasRetardo now 255)
    ∧ (s.contador ≤ 254 → now + 700 < 2 ^ 16 → (loop now pins s).tiempoFuturo
        = now + ⌊Retardo (fun x y : ℝ => x ^ y) (s.contador + 1)⌋₊)
    ∧ (s.contador = 255 → now + 700 < 2 ^ 16 → (loop now pins s).tiempoFuturo
        = now + ⌊Retardo (fun x y : ℝ => x ^ y) 255⌋₊)
    ∧ (s.contador = 0 → now + 495 ≤ 2 ^ 19 → (loop now pins s).tiempoFuturo = now + 494)
    ∧ ⌊Retardo (fun x y : ℝ => x ^ y) 1⌋₊ = 494 := by
  obtain ⟨-, -, -, h4, -⟩ := loop_of_aceptado pins h
  have e1 : s.contador ≤ 254 → (loop now pins s).tiempoFuturo
      = tiempoTrasRetardo now (s.contador + 1) := by
    intro hc
    rw [h4, if_pos hc, Nat.mod_eq_of_lt (by omega)]
  have e2 : s.contador = 255 → (loop now pins s).tiempoFuturo = tiempoTrasRetardo now 255 := by
    intro hc
    rw [h4, hc]
    rfl
  refine ⟨e1, e2, fun hc hnow => ?_, fun hc hnow => ?_, fun hc hnow => ?_, ?_⟩
  · rw [e1 hc, tiempoTrasRetardo_eq (by omega) (by omega) hnow, RetardoTrunc_eq_floor]
  · rw [e2 hc, tiempoTrasRetardo_eq (by omega) (by omega) hnow, RetardoTrunc_eq_floor]
  · rw [e1 (by omega), hc]
    exact tiempoTrasRetardo_eq_1 hnow
  · rw [← RetardoTrunc_eq_floor]
    decide

set_option maxRecDepth 100000 in
/-- Instance of the amended C8: the pass at 1120 after the press at 1000. -/
theorem accepted_tick_tiempoFuturo_witness :
    aceptado 1120 (Pulsado 1000 (fun p => p == 12) setup) = true
    ∧ (loop 1120 (fun p => p == 12) (Pulsado 1000 (fun p => p == 12) setup)).tiempoFuturo
        = 1120 + 494 :=
  ⟨by decide,
    (accepted_tick_tiempoFuturo 1120 (fun p => p == 12) (Pulsado 1000 (fun p => p == 12) setup)
      (by decide)).2.2.2.2.1 (by decide) (by decide)⟩

/-! ### A held score button, with a pass of `loop` at every clock value -/

theorem RetardoTrunc_ge (n : Nat) : 50 ≤ RetardoTrunc n :=
  le_max_left _ _

theorem RetardoTrunc_le (n : Nat) : RetardoTrunc n ≤ 700 :=
  max_le (by decide) (Nat.findGreatest_le _)

theorem RetardoTrunc_antitone {m n : Nat} (h : m ≤ n) : RetardoTrunc n ≤ RetardoTrunc m := by
  unfold RetardoTrunc
  apply max_le_max le_rfl
  apply Nat.findGreatest_mono_left
  intro k hk
  calc k * k * (m + 1) ≤ k * k * (n + 1) := Nat.mul_le_mul_left _ (by omega)
    _ ≤ CST_RETARDO * CST_RETARDO := hk

theorem RetardoTrunc_ge_121 {n : Nat} (h : n ≤ 32) : 121 ≤ RetardoTrunc n := by
  refine le_trans ?_ (le_max_right _ _)
  apply Nat.le_findGreatest (by decide)
  show 121 * 121 * (n + 1) ≤ 700 * 700
  omega

theorem densos_append (pq : Nat → Nat → Bool) :
    ∀ m a r, densos pq a (m + r) = densos pq a m ++ densos pq (a + m) r := by
  intro m
  induction m with
  | zero => intro a r; simp [densos]
  | succ m ih =>
    intro a r
    rw [Nat.succ_add, densos, densos, ih (a + 1) r, List.cons_append]
    congr 3
    omega

theorem despachos_append (t1 : List Evento) :
    ∀ (u : Estado) (t2 : List Evento),
      despachos u (t1 ++ t2) = despachos u t1 ++ despachos (correr u t1) t2 := by
  induction t1 with
  | nil => intro u t2; simp [despachos, correr_nil]
  | cons e tr ih =>
    intro u t2
    cases e with
    | flanco now pins =>
      rw [List.cons_append, despachos, despachos, ih]
      rfl
    | tick now pins =>
      rw [List.cons_append, despachos, despachos, ih, List.append_assoc]
      rfl

theorem not_aceptado_of_filtro {now : Nat} {s : Estado}
    (h : restaUL now s.tiempoAnterior ≤ CST_FILTRO) : aceptado now s = false := by
  simp [aceptado, h]

/-- Before the instant `proximo` no pass sends a press. -/
theorem densos_espera (pq : Nat → Nat → Bool) :
    ∀ (n a : Nat) (u : Estado), u.tiempoAnterior ≤ a →
      a + n ≤ proximo u.tiempoFuturo u.tiempoAnterior → a + n ≤ ULONG →
      despachos u (densos pq a n) = []
      ∧ (correr u (densos pq a n)).botonPulsado = u.botonPulsado
      ∧ (correr u (densos pq a n)).contador = u.contador
      ∧ (correr u (densos pq a n)).tiempoFuturo = u.tiempoFuturo
      ∧ (correr u (densos pq a n)).tiempoAnterior = u.tiempoAnterior := by
  intro n
  induction n with
  | zero => intro a u _ _ _; simp [densos, despachos, correr_nil]
  | succ n ih =>
    intro a u hA hN hU
    have hna : aceptado a u = false := by
      by_cases hF : a < u.tiempoFuturo
      · exact not_aceptado_of_lt hF
      · apply not_aceptado_of_filtro
        rw [restaUL_of_le hA (by omega)]
        unfold proximo at hN
        have : max u.tiempoFuturo (u.tiempoAnterior + CST_FILTRO + 1)
            = u.tiempoAnterior + CST_FILTRO + 1 := by
          rcases le_total u.tiempoFuturo (u.tiempoAnterior + CST_FILTRO + 1) with h | h
          · exact max_eq_right h
          · omega
        omega
    obtain ⟨g1, g2, g3, g4, g5⟩ := loop_of_not_aceptado (pq a) hna
    obtain ⟨k0, k1, k2, k3, k4⟩ := ih (a + 1) (loop a (pq a) u) (by rw [g3]; omega)
      (by rw [g3, g4]; omega) (by omega)
    have hesc : escritos u (loop a (pq a) u) = [] := by simp [escritos, g5]
    have hc : correr u (densos pq a (n + 1)) = correr (loop a (pq a) u) (densos pq (a + 1) n) := rfl
    rw [hc, densos, despachos, hesc, k0]
    exact ⟨by simp, k1.trans g1, k2.trans g2, k3.trans g4, k4.trans g3⟩

/-- At the instant `proximo` the pass sends a press. -/
theorem aceptado_proximo {u : Estado} (hb : u.botonPulsado = true)
    (hU : proximo u.tiempoFuturo u.tiempoAnterior < ULONG) :
    aceptado (proximo u.tiempoFuturo u.tiempoAnterior) u = true := by
  have h1 : u.tiempoFuturo ≤ proximo u.tiempoFuturo u.tiempoAnterior := le_max_left _ _
  have h2 : u.tiempoAnterior + CST_FILTRO + 1 ≤ proximo u.tiempoFuturo u.tiempoAnterior :=
    le_max_right _ _
  rw [aceptado_iff, restaUL_of_le (by omega) hU]
  exact ⟨⟨h1, hb⟩, by omega⟩

theorem contadorSiguiente_eq {c : Nat} (h : c ≤ 255) :
    contadorSiguiente c = if c ≤ 254 then c + 1 else 255 := by
  unfold contadorSiguiente
  split_ifs with h1
  · exact Nat.mod_eq_of_lt (by omega)
  · omega

/-- With a score button held and a pass of `loop` at every clock value from `a`
on, the dispatches are those of `plan`, as long as the `float` sum is exact:
below the clock value `B` and for the counters up to `C`. -/
theorem despachos_densos (pq : Nat → Nat → Bool)
    (hheld : ∀ t, primerActivo (pq t) cadenaPuntos ≠ [])
    (B C : Nat) (hB : B ≤ ULONG)
    (hex : ∀ now c, 1 ≤ c → c ≤ C → now + 700 < B →
      tiempoTrasRetardo now c = now + RetardoTrunc c) :
    ∀ (k : Nat) (u : Estado) (a n : Nat),
      u.botonPulsado = true → u.tiempoAnterior ≤ a →
      a ≤ proximo u.tiempoFuturo u.tiempoAnterior →
      a + n + CST_RETARDO ≤ B →
      u.contador ≤ 255 → (u.contador + k ≤ C ∨ C = 255) →
      (∀ x ∈ plan k u.tiempoFuturo u.tiempoAnterior u.contador, x.1 < a + n) →
      a + n ≤ planN k u.tiempoFuturo u.tiempoAnterior u.contador →
      despachos u (densos pq a n) = plan k u.tiempoFuturo u.tiempoAnterior u.contador := by
  intro k
  induction k with
  | zero =>
    intro u a n _ hA _ hU _ _ _ hN
    simp only [planN] at hN
    exact (densos_espera pq n a u hA hN (by omega)).1
  | succ k ih =>
    intro u a n hb hA ha hU hc255 hcC hx hN
    have hcst : CST_RETARDO = 700 := rfl
    have hNlt : proximo u.tiempoFuturo u.tiempoAnterior < a + n :=
      hx (proximo u.tiempoFuturo u.tiempoAnterior, u.contador) (by simp [plan])
    obtain ⟨r, hr⟩ : ∃ r, n = (proximo u.tiempoFuturo u.tiempoAnterior - a) + (r + 1) :=
      ⟨n - (proximo u.tiempoFuturo u.tiempoAnterior - a) - 1, by omega⟩
    obtain ⟨w0, w1, w2, w3, w4⟩ := densos_espera pq
      (proximo u.tiempoFuturo u.tiempoAnterior - a) a u hA (by omega) (by omega)
    have haN : a + (proximo u.tiempoFuturo u.tiempoAnterior - a)
        = proximo u.tiempoFuturo u.tiempoAnterior := by omega
    have hacc : aceptado (proximo u.tiempoFuturo u.tiempoAnterior)
        (correr u (densos pq a (proximo u.tiempoFuturo u.tiempoAnterior - a))) = true := by
      have h := aceptado_proximo
        (u := correr u (densos pq a (proximo u.tiempoFuturo u.tiempoAnterior - a)))
        (by rw [w1]; exact hb) (by rw [w3, w4]; omega)
      rwa [w3, w4] at h
    rw [hr, densos_append, despachos_append, w0, List.nil_append, haN, densos, despachos]
    generalize correr u (densos pq a (proximo u.tiempoFuturo u.tiempoAnterior - a)) = v at *
    generalize hN0 : proximo u.tiempoFuturo u.tiempoAnterior = N at *
    obtain ⟨g1, g2, g3, g4, g5⟩ := loop_of_aceptado (pq N) hacc
    have hesc : escritos v (loop N (pq N) v) ≠ [] := by
      rw [escritos_of_append g5, bytesDespacho]
      simp [hheld N]
    have hR := RetardoTrunc_le (contadorSiguiente u.contador)
    have hR' := RetardoTrunc_ge (contadorSiguiente u.contador)
    have hcs := contadorSiguiente_eq hc255
    have hcs1 : 1 ≤ contadorSiguiente u.contador := by rw [hcs]; split_ifs <;> omega
    have hcs255 : contadorSiguiente u.contador ≤ 255 := by rw [hcs]; split_ifs <;> omega
    have hcsC : contadorSiguiente u.contador ≤ C := by
      rw [hcs]
      split_ifs <;> omega
    have hcsk : contadorSiguiente u.contador + k ≤ C ∨ C = 255 := by
      rw [hcs]
      split_ifs <;> omega
    have g2' : (loop N (pq N) v).contador = contadorSiguiente v.contador := g2
    have g4' : (loop N (pq N) v).tiempoFuturo
        = tiempoTrasRetardo N (contadorSiguiente v.contador) := g4
    have hC : (loop N (pq N) v).contador = contadorSiguiente u.contador := by
      rw [g2', w2]
    have hF : (loop N (pq N) v).tiempoFuturo = N + RetardoTrunc (contadorSiguiente u.contador) := by
      rw [g4', w2]
      exact hex N _ hcs1 hcsC (by omega)
    have hA' : (loop N (pq N) v).tiempoAnterior = u.tiempoFuturo := by rw [g3, w3]
    have hplan : plan (k + 1) u.tiempoFuturo u.tiempoAnterior u.contador
        = (N, u.contador) ::
          plan k (N + RetardoTrunc (contadorSiguiente u.contador)) u.tiempoFuturo
            (contadorSiguiente u.contador) := by
      rw [plan, hN0]
    have hplanN : planN (k + 1) u.tiempoFuturo u.tiempoAnterior u.contador
        = planN k (N + RetardoTrunc (contadorSiguiente u.contador)) u.tiempoFuturo
            (contadorSiguiente u.contador) := by
      rw [planN, hN0]
    have hFN : u.tiempoFuturo ≤ N := by rw [← hN0]; exact le_max_left _ _
    rw [hplan] at hx ⊢
    rw [hplanN] at hN
    rw [if_neg hesc, w2]
    have hrec := ih (loop N (pq N) v) (N + 1) r (by rw [g1, w1]; exact hb)
      (by rw [hA']; omega)
      (by rw [hF, hA']; exact le_trans (by omega) (le_max_left _ _))
      (by omega)
      (by rw [hC]; exact hcs255)
      (by rw [hC]; exact hcsk)
      (by
        rw [hF, hA', hC]
        intro x hx'
        have := hx x (List.mem_cons_of_mem _ hx')
        omega)
      (by rw [hF, hA', hC]; omega)
    rw [hrec, hF, hA', hC]
    rfl

theorem planN_ge (k : Nat) : ∀ F A c : Nat, F ≤ planN k F A c := by
  induction k with
  | zero => intro F A c; exact le_max_left _ _
  | succ k ih =>
    intro F A c
    rw [planN]
    have h1 := ih (proximo F A + RetardoTrunc (contadorSiguiente c)) F (contadorSiguiente c)
    have h2 : F ≤ proximo F A := le_max_left _ _
    omega

theorem plan_lt_planN (k : Nat) :
    ∀ F A c : Nat, ∀ x ∈ plan k F A c, x.1 < planN k F A c := by
  induction k with
  | zero => intro F A c x hx; simp [plan] at hx
  | succ k ih =>
    intro F A c x hx
    rw [plan, List.mem_cons] at hx
    rw [planN]
    rcases hx with rfl | hx
    · have h1 := planN_ge k (proximo F A + RetardoTrunc (contadorSiguiente c)) F
        (contadorSiguiente c)
      have h2 := RetardoTrunc_ge (contadorSiguiente c)
      show proximo F A < _
      omega
    · exact ih _ _ _ x hx

theorem instanteDesde_shift (F c : Nat) :
    ∀ i, instanteDesde F c (i + 1) = instanteDesde (F + RetardoTrunc (c + 1)) (c + 1) i := by
  intro i
  induction i with
  | zero => simp [instanteDesde]
  | succ i ih =>
    have h1 : instanteDesde F c (i + 1 + 1)
        = instanteDesde F c (i + 1) + RetardoTrunc (c + (i + 1) + 1) := by
      simp only [instanteDesde]
    have h2 : instanteDesde (F + RetardoTrunc (c + 1)) (c + 1) (i + 1)
        = instanteDesde (F + RetardoTrunc (c + 1)) (c + 1) i + RetardoTrunc (c + 1 + i + 1) := by
      simp only [instanteDesde]
    have h3 : c + (i + 1) + 1 = c + 1 + i + 1 := by omega
    rw [h1, h2, ih, h3]

theorem instanteDesde_mono (F c : Nat) {i k : Nat} (h : i ≤ k) :
    instanteDesde F c i ≤ instanteDesde F c k := by
  induction k with
  | zero =>
    have : i = 0 := by omega
    rw [this]
  | succ k ih =>
    rcases Nat.lt_or_ge i (k + 1) with h1 | h1
    · have := ih (by omega)
      rw [instanteDesde]
      omega
    · have : i = k + 1 := by omega
      rw [this]

/-- While the delay exceeds the filter (counters up to 32) the dispatches of
`plan` are on time: each comes `RetardoTrunc` of its counter after the one
before. -/
theorem plan_regimen (k : Nat) :
    ∀ F A c : Nat, A + CST_FILTRO + 1 ≤ F → c + k ≤ 33 →
      plan k F A c = (List.range k).map (fun i => (instanteDesde F c i, c + i)) := by
  induction k with
  | zero => intro F A c _ _; rfl
  | succ k ih =>
    intro F A c hF hk
    have hN : proximo F A = F := max_eq_left hF
    have hc : contadorSiguiente c = c + 1 := by
      unfold contadorSiguiente
      rw [if_pos (by omega), Nat.mod_eq_of_lt (by omega)]
    rw [plan, hN, hc, List.range_succ_eq_map, List.map_cons, List.map_map]
    rcases Nat.eq_zero_or_pos k with h0 | hpos
    · subst h0
      simp [plan, instanteDesde]
    · have hR : 121 ≤ RetardoTrunc (c + 1) := RetardoTrunc_ge_121 (by omega)
      have hcf : CST_FILTRO = 120 := rfl
      have hrec := ih (F + RetardoTrunc (c + 1)) F (c + 1) (by omega) (by omega)
      have hmap : List.map (fun i => (instanteDesde (F + RetardoTrunc (c + 1)) (c + 1) i, c + 1 + i))
            (List.range k)
          = List.map ((fun i => (instanteDesde F c i, c + i)) ∘ Nat.succ) (List.range k) := by
        apply List.map_congr_left
        intro i _
        simp only [Function.comp, Nat.succ_eq_add_one, instanteDesde_shift]
        congr 1
        omega
      rw [hrec, hmap]
      simp only [instanteDesde, Nat.add_zero]

theorem primerActivo_ne_nil {pins : Nat → Bool} {l : List s_Boton} {b : s_Boton}
    (hb : b ∈ l) (h : pins b.PIN = true) : primerActivo pins l ≠ [] := by
  induction l with
  | nil => simp at hb
  | cons a l ih =>
    rw [primerActivo_cons]
    split_ifs with ha
    · simp
    · rcases List.mem_cons.1 hb with rfl | hb'
      · exact absurd h ha
      · exact ih hb'

set_option maxRecDepth 100000 in
/-- C9 as stated fails: +1 local held after the press edge at 1000, a pass of
`loop` at every clock value from 1000 to 8314. The first two intervals are 494
and 404, so the intervals are not non-decreasing; the last two are 116 and 117,
so they are not non-increasing either; and the dispatch with counter 35 comes
119 after the one before, while the whole part of the delay is 116 for counter
35 and 118 for counter 34. -/
theorem dense_hold_breaks_delay_law :
    despachos setup
        (Evento.flanco 1000 (fun p => p == 12) :: densos (fun _ p => p == 12) 1000 7315)
      = [(1120, 0), (1614, 1), (2018, 2), (2368, 3), (2681, 4), (2966, 5), (3230, 6),
         (3477, 7), (3710, 8), (3931, 9), (4142, 10), (4344, 11), (4538, 12), (4725, 13),
         (4905, 14), (5080, 15), (5249, 16), (5413, 17), (5573, 18), (5729, 19), (5881, 20),
         (6030, 21), (6175, 22), (6317, 23), (6457, 24), (6594, 25), (6728, 26), (6860, 27),
         (6989, 28), (7116, 29), (7241, 30), (7364, 31), (7485, 32), (7606, 33), (7726, 34),
         (7845, 35), (7963, 36), (8081, 37), (8197, 38), (8314, 39)]
    ∧ RetardoTrunc 34 = 118 ∧ RetardoTrunc 35 = 116
    ∧ 7845 - 7726 = 119 ∧ 1614 - 1120 = 494 ∧ 2018 - 1614 = 404
    ∧ 8197 - 8081 = 116 ∧ 8314 - 8197 = 117 := by
  have hplan : plan 40 1120 0 0
      = [(1120, 0), (1614, 1), (2018, 2), (2368, 3), (2681, 4), (2966, 5), (3230, 6),
         (3477, 7), (3710, 8), (3931, 9), (4142, 10), (4344, 11), (4538, 12), (4725, 13),
         (4905, 14), (5080, 15), (5249, 16), (5413, 17), (5573, 18), (5729, 19), (5881, 20),
         (6030, 21), (6175, 22), (6317, 23), (6457, 24), (6594, 25), (6728, 26), (6860, 27),
         (6989, 28), (7116, 29), (7241, 30), (7364, 31), (7485, 32), (7606, 33), (7726, 34),
         (7845, 35), (7963, 36), (8081, 37), (8197, 38), (8314, 39)] := by
    decide
  have hplanN : planN 40 1120 0 0 = 8428 := by decide
  have hheld : ∀ t : Nat, primerActivo ((fun _ p => p == 12) t) cadenaPuntos ≠ [] := by
    intro _
    show primerActivo (fun p => p == 12) cadenaPuntos ≠ []
    decide
  have key := despachos_densos (fun _ p => p == 12) hheld (2 ^ 16) 255 (by decide)
    (fun _ _ h1 h2 h3 => tiempoTrasRetardo_eq h1 h2 h3) 40
    (Pulsado 1000 (fun p => p == 12) setup) 1000 7315 (by decide) (by decide) (by decide)
    (by decide) (by decide) (Or.inr rfl)
    (by
      show ∀ x ∈ plan 40 1120 0 0, x.1 < 1000 + 7315
      rw [hplan]
      decide)
    (by
      show 1000 + 7315 ≤ planN 40 1120 0 0
      rw [hplanN]
      decide)
  refine ⟨?_, by decide, by decide, by decide, by decide, by decide, by decide, by decide⟩
  rw [← hplan]
  exact key

/-- C9, amended: a press edge at `tp` with the counter at 0 and `tiempoAnterior`
before `tp`, a score button `b` held, a pass of `loop` at every clock value, in
the first `2 ^ 18` ms of the clock (where the `float` sum of `loop` is exact for
these counters). The first dispatch is at `tp + 120` with counter 0, and for
`n = 1, ..., K` (any `K <= 32`, the counters whose delay exceeds the filter of
120) the dispatch with counter `n` comes exactly the whole part of `Retardo n`
after the one with counter `n - 1`. These intervals do not increase with `n`. -/
theorem held_score_intervals (s : Estado) (tp K : Nat) (pinsP : Nat → Bool)
    (pq : Nat → Nat → Bool) (b : s_Boton)
    (hb : b ∈ cadenaPuntos) (hheld : ∀ t, pq t b.PIN = true)
    (hP : pinsP DEF_INT.PIN = false)
    (hc : s.contador = 0) (hA : s.tiempoAnterior < tp)
    (hK : K ≤ 32)
    (hU : instanteDesde (tp + CST_FILTRO) 0 K + 1 + CST_RETARDO ≤ 2 ^ 18) :
    despachos s (Evento.flanco tp pinsP ::
        densos pq tp (instanteDesde (tp + CST_FILTRO) 0 K + 1 - tp))
      = (List.range (K + 1)).map (fun n => (instanteDesde (tp + CST_FILTRO) 0 n, n))
    ∧ instanteDesde (tp + CST_FILTRO) 0 0 = tp + 120
    ∧ (∀ n, instanteDesde (tp + CST_FILTRO) 0 (n + 1)
        = instanteDesde (tp + CST_FILTRO) 0 n + ⌊Retardo (fun x y : ℝ => x ^ y) (n + 1)⌋₊)
    ∧ (∀ n, ⌊Retardo (fun x y : ℝ => x ^ y) (n + 2)⌋₊
        ≤ ⌊Retardo (fun x y : ℝ => x ^ y) (n + 1)⌋₊) := by
  have hcf : CST_FILTRO = 120 := rfl
  have hcr : CST_RETARDO = 700 := rfl
  have hUL : (2 : Nat) ^ 18 ≤ ULONG := by decide
  have hT0 : tp + CST_FILTRO ≤ instanteDesde (tp + CST_FILTRO) 0 K :=
    instanteDesde_mono (tp + CST_FILTRO) 0 (Nat.zero_le K)
  have hu1 : (Pulsado tp pinsP s).botonPulsado = true := by simp [Pulsado, hP]
  have hu2 : (Pulsado tp pinsP s).tiempoFuturo = tp + CST_FILTRO := by
    simp only [Pulsado, hP, Bool.not_false, if_true]
    exact sumaUL_of_lt (by omega)
  have hu3 : (Pulsado tp pinsP s).tiempoAnterior = s.tiempoAnterior := by simp [Pulsado, hP]
  have hu4 : (Pulsado tp pinsP s).contador = 0 := by simp [Pulsado, hP, hc]
  have hplan := plan_regimen (K + 1) (tp + CST_FILTRO) s.tiempoAnterior 0 (by omega) (by omega)
  have hplan' : plan (K + 1) (tp + CST_FILTRO) s.tiempoAnterior 0
      = (List.range (K + 1)).map (fun n => (instanteDesde (tp + CST_FILTRO) 0 n, n)) := by
    rw [hplan]
    apply List.map_congr_left
    intro n _
    simp
  have hlast : (instanteDesde (tp + CST_FILTRO) 0 K, K)
      ∈ plan (K + 1) (tp + CST_FILTRO) s.tiempoAnterior 0 := by
    rw [hplan']
    exact List.mem_map.2 ⟨K, List.mem_range.2 (by omega), rfl⟩
  have hnext := plan_lt_planN (K + 1) (tp + CST_FILTRO) s.tiempoAnterior 0 _ hlast
  have key := despachos_densos pq (fun t => primerActivo_ne_nil hb (hheld t)) (2 ^ 18) 33
    (by decide) (fun _ _ h1 h2 h3 => tiempoTrasRetardo_eq_33 h1 h2 h3) (K + 1)
    (Pulsado tp pinsP s) tp (instanteDesde (tp + CST_FILTRO) 0 K + 1 - tp) hu1
    (by rw [hu3]; omega)
    (by rw [hu2, hu3]; exact le_trans (by omega) (le_max_left _ _))
    (by omega)
    (by rw [hu4]; omega)
    (Or.inl (by rw [hu4]; omega))
    (by
      rw [hu2, hu3, hu4, hplan']
      intro x hx
      obtain ⟨n, hn, rfl⟩ := List.mem_map.1 hx
      have := instanteDesde_mono (tp + CST_FILTRO) 0 (Nat.lt_succ_iff.1 (List.mem_range.1 hn))
      show instanteDesde (tp + CST_FILTRO) 0 n < _
      omega)
    (by
      rw [hu2, hu3, hu4]
      have : instanteDesde (tp + CST_FILTRO) 0 K
          < planN (K + 1) (tp + CST_FILTRO) s.tiempoAnterior 0 := hnext
      omega)
  rw [hu2, hu3, hu4, hplan'] at key
  refine ⟨key, by simp [instanteDesde, hcf], fun n => ?_, fun n => ?_⟩
  · rw [← RetardoTrunc_eq_floor]
    simp only [instanteDesde, Nat.zero_add]
  · rw [← RetardoTrunc_eq_floor, ← RetardoTrunc_eq_floor]
    exact RetardoTrunc_antitone (by omega)

set_option maxRecDepth 100000 in
/-- Instance of the amended C9: +1 local held after the press edge at 1000 right
after `setup`: dispatches at 1120, 1614 and 2018, that is 494 and 404 apart. -/
theorem held_score_intervals_witness :
    despachos setup (Evento.flanco 1000 (fun p => p == 12) ::
        densos (fun _ p => p == 12) 1000 (instanteDesde (1000 + CST_FILTRO) 0 2 + 1 - 1000))
      = (List.range (2 + 1)).map (fun n => (instanteDesde (1000 + CST_FILTRO) 0 n, n))
    ∧ (List.range (2 + 1)).map (fun n => (instanteDesde (1000 + CST_FILTRO) 0 n, n))
      = [(1120, 0), (1614, 1), (2018, 2)] :=
  ⟨(held_score_intervals setup 1000 2 (fun p => p == 12) (fun _ p => p == 12) DEF_SPL
      (by decide) (fun _ => rfl) (by decide) (by decide) (by decide) (by decide)
      (by decide)).1,
    by decide⟩

/-! ### Bounds of the acceleration curve -/

/-- C10: over the reals `Retardo n` is the greater of 50 and `700 / sqrt (n + 1)`;
it is at least 50, `CST_LIM_ACCEL`, for every `n`, and does not increase with `n`. -/
theorem Retardo_ge_min_and_antitone (m n : Nat) (h : m ≤ n) :
    Retardo (fun x y : ℝ => x ^ y) n = max 50 (700 / Real.sqrt ((n : ℝ) + 1))
    ∧ ((CST_LIM_ACCEL : ℕ) : ℝ) ≤ Retardo (fun x y : ℝ => x ^ y) n
    ∧ Retardo (fun x y : ℝ => x ^ y) n ≤ Retardo (fun x y : ℝ => x ^ y) m := by
  refine ⟨Retardo_real n, ?_, ?_⟩
  · rw [Retardo_real]
    simp [CST_LIM_ACCEL]
  · rw [Retardo_real, Retardo_real]
    have hm : (0 : ℝ) < (m : ℝ) + 1 := by positivity
    have hle : Real.sqrt ((m : ℝ) + 1) ≤ Real.sqrt ((n : ℝ) + 1) :=
      Real.sqrt_le_sqrt (by exact_mod_cast Nat.succ_le_succ h)
    have hdiv : (700 : ℝ) / Real.sqrt ((n : ℝ) + 1) ≤ 700 / Real.sqrt ((m : ℝ) + 1) :=
      div_le_div_of_nonneg_left (by norm_num) (Real.sqrt_pos.2 hm) hle
    exact max_le_max le_rfl hdiv

/-- Instance of C10 at counters 1 and 2. -/
theorem Retardo_ge_min_and_antitone_witness :
    (50 : ℝ) ≤ Retardo (fun x y : ℝ => x ^ y) 2
    ∧ Retardo (fun x y : ℝ => x ^ y) 2 ≤ Retardo (fun x y : ℝ => x ^ y) 1 := by
  have h := Retardo_ge_min_and_antitone 1 2 (by decide)
  refine ⟨?_, h.2.2⟩
  have h2 := h.2.1
  simp only [CST_LIM_ACCEL, Nat.cast_ofNat] at h2
  exact h2

theorem lt_cociente_iff (n k : Nat) :
    (k : ℝ) < 700 / Real.sqrt ((n : ℝ) + 1) ↔ k * k * (n + 1) < 700 * 700 := by
  have hm : (0 : ℝ) < (n : ℝ) + 1 := by positivity
  have hs : 0 < Real.sqrt ((n : ℝ) + 1) := Real.sqrt_pos.2 hm
  rw [lt_div_iff₀ hs]
  have h2 : (k : ℝ) * Real.sqrt ((n : ℝ) + 1) = Real.sqrt ((k : ℝ) ^ 2 * ((n : ℝ) + 1)) := by
    rw [Real.sqrt_mul (sq_nonneg _), Real.sqrt_sq (Nat.cast_nonneg k)]
  rw [h2, Real.sqrt_lt' (by norm_num)]
  have h3 : ((k : ℝ) ^ 2 * ((n : ℝ) + 1) < 700 ^ 2) ↔
      (((k * k * (n + 1) : ℕ) : ℝ) < ((700 * 700 : ℕ) : ℝ)) := by
    push_cast
    constructor <;> intro h <;> nlinarith [h]
  rw [h3, Nat.cast_lt]

/-- C11: over the reals `Retardo 0 = 700`, `Retardo 1 = 700 / sqrt 2` lies
between 494 and 495, `Retardo 9 = 700 / sqrt 10` lies between 221 and 222, and
the value is exactly 50 for every `n >= 195` and above 50 for every `n < 195`;
195 is within the range 0..255 of the counter. -/
theorem Retardo_values :
    Retardo (fun x y : ℝ => x ^ y) 0 = 700
    ∧ ((CST_RETARDO : ℕ) : ℝ) = 700
    ∧ Retardo (fun x y : ℝ => x ^ y) 1 = 700 / Real.sqrt 2
    ∧ 494 < Retardo (fun x y : ℝ => x ^ y) 1 ∧ Retardo (fun x y : ℝ => x ^ y) 1 < 495
    ∧ Retardo (fun x y : ℝ => x ^ y) 9 = 700 / Real.sqrt 10
    ∧ 221 < Retardo (fun x y : ℝ => x ^ y) 9 ∧ Retardo (fun x y : ℝ => x ^ y) 9 < 222
    ∧ (∀ n : Nat, 195 ≤ n → Retardo (fun x y : ℝ => x ^ y) n = 50)
    ∧ (∀ n : Nat, n < 195 → 50 < Retardo (fun x y : ℝ => x ^ y) n)
    ∧ (195 : Nat) ≤ 255 := by
  have hgt : ∀ n : Nat, n < 195 →
      Retardo (fun x y : ℝ => x ^ y) n = 700 / Real.sqrt ((n : ℝ) + 1)
      ∧ (50 : ℝ) < 700 / Real.sqrt ((n : ℝ) + 1) := by
    intro n hn
    have h : ((50 : ℕ) : ℝ) < 700 / Real.sqrt ((n : ℝ) + 1) :=
      (lt_cociente_iff n 50).2 (by omega)
    have h' : (50 : ℝ) < 700 / Real.sqrt ((n : ℝ) + 1) := by simpa using h
    exact ⟨by rw [Retardo_real, max_eq_right h'.le], h'⟩
  have hlt : ∀ n k : Nat, 700 * 700 < k * k * (n + 1) →
      700 / Real.sqrt ((n : ℝ) + 1) < (k : ℝ) := by
    intro n k h
    rw [← not_le, le_cociente_iff]
    omega
  have h1 := hgt 1 (by decide)
  have h9 := hgt 9 (by decide)
  have e1 : ((1 : ℕ) : ℝ) + 1 = 2 := by norm_num
  have e9 : ((9 : ℕ) : ℝ) + 1 = 10 := by norm_num
  have l1 : ((494 : ℕ) : ℝ) < 700 / Real.sqrt (((1 : ℕ) : ℝ) + 1) :=
    (lt_cociente_iff 1 494).2 (by decide)
  have u1 : 700 / Real.sqrt (((1 : ℕ) : ℝ) + 1) < ((495 : ℕ) : ℝ) := hlt 1 495 (by decide)
  have l9 : ((221 : ℕ) : ℝ) < 700 / Real.sqrt (((9 : ℕ) : ℝ) + 1) :=
    (lt_cociente_iff 9 221).2 (by decide)
  have u9 : 700 / Real.sqrt (((9 : ℕ) : ℝ) + 1) < ((222 : ℕ) : ℝ) := hlt 9 222 (by decide)
  refine ⟨?_, by simp [CST_RETARDO], ?_, ?_, ?_, ?_, ?_, ?_, ?_, ?_, by decide⟩
  · rw [Retardo_real]
    norm_num
  · rw [h1.1, e1]
  · rw [h1.1]
    simpa using l1
  · rw [h1.1]
    simpa using u1
  · rw [h9.1, e9]
  · rw [h9.1]
    simpa using l9
  · rw [h9.1]
    simpa using u9
  · intro n hn
    rw [Retardo_real]
    apply max_eq_left
    have h : ¬ ((50 : ℕ) : ℝ) < 700 / Real.sqrt ((n : ℝ) + 1) := by
      rw [lt_cociente_iff]
      omega
    simpa using h
  · intro n hn
    rw [(hgt n hn).1]
    exact (hgt n hn).2

/-! ### The counter -/

/-- C12: in every step (press edge, release edge, pass of `loop`) from a state
whose counter fits eight bits, the counter after the step fits eight bits, and
it is not below the counter before unless the step is a release edge; a pass
that sends a press takes the counter `c` to `c + 1` when `c <= 254` and leaves
it at 255 when `c = 255`, so it never wraps to 0. -/
theorem contador_step (s : Estado) (e : Evento) (h : s.contador ≤ 255) :
    (paso s e).contador ≤ 255
    ∧ (¬ esSoltar e → s.contador ≤ (paso s e).contador)
    ∧ (∀ now pins, e = Evento.tick now pins → aceptado now s = true →
        (s.contador ≤ 254 → (paso s e).contador = s.contador + 1)
        ∧ (s.contador = 255 → (paso s e).contador = 255)
        ∧ (paso s e).contador ≠ 0) := by
  cases e with
  | flanco now pins =>
    have hp : paso s (Evento.flanco now pins) = Pulsado now pins s := rfl
    rw [hp]
    refine ⟨?_, ?_, fun _ _ h' => by cases h'⟩
    · unfold Pulsado
      split_ifs <;> simp [Serial_write, h]
    · intro hrel
      simp only [esSoltar] at hrel
      simp [Pulsado, hrel]
  | tick now pins =>
    have hp : paso s (Evento.tick now pins) = loop now pins s := rfl
    rw [hp]
    rcases Bool.eq_false_or_eq_true (aceptado now s) with hacc | hacc
    · obtain ⟨-, g2, -⟩ := loop_of_aceptado pins hacc
      rw [g2]
      refine ⟨?_, fun _ => ?_, fun _ _ _ _ => ⟨fun hc => ?_, fun hc => ?_, ?_⟩⟩
      · split_ifs <;> omega
      · split_ifs <;> omega
      · rw [if_pos hc, Nat.mod_eq_of_lt (by omega)]
      · rw [hc]
        rfl
      · split_ifs <;> omega
    · obtain ⟨-, g2, -⟩ := loop_of_not_aceptado pins hacc
      rw [g2]
      refine ⟨h, fun _ => le_rfl, fun now' pins' he hacc' => ?_⟩
      injection he with h1 h2
      subst h1
      rw [hacc] at hacc'
      exact absurd hacc' (by simp)

set_option maxRecDepth 20000 in
/-- Instance of C12: the pass of `loop` at 1120 after the press at 1000 takes the
counter from 0 to 1. -/
theorem contador_step_witness :
    (Pulsado 1000 (fun p => p == 12) setup).contador ≤ 255
    ∧ (paso (Pulsado 1000 (fun p => p == 12) setup)
        (Evento.tick 1120 (fun p => p == 12))).contador = 0 + 1 :=
  ⟨by decide,
    ((contador_step (Pulsado 1000 (fun p => p == 12) setup)
        (Evento.tick 1120 (fun p => p == 12)) (by decide)).2.2
      1120 (fun p => p == 12) rfl (by decide)).1 (by decide)⟩

/-! ### The buzzer -/

/-- C13: `Beep` at time `now` sets `sonando` and the buzzer pin and sets
`tiempoBeep` to `now + 20` (sum of `unsigned long`), whatever the state, so
also when already sounding, and touches nothing else; the second statement of
`loop` clears `sonando` (and the buzzer pin) exactly when `sonando` is set and
`now >= tiempoBeep`, otherwise it leaves the state as it was; it never changes
the pressed flag, the counter or the two time stamps of the repetition. -/
theorem buzzer_controller (now : Nat) (s : Estado) :
    (Beep now s).sonando = true
    ∧ (Beep now s).buz = true
    ∧ (Beep now s).tiempoBeep = sumaUL now CST_BEEP
    ∧ (now + 20 < ULONG → (Beep now s).tiempoBeep = now + 20)
    ∧ Beep now s = { s with tiempoBeep := sumaUL now CST_BEEP, buz := true, sonando := true }
    ∧ ((s.sonando = true ∧ now ≥ s.tiempoBeep) →
        (loopBuzzer now s).sonando = false ∧ (loopBuzzer now s).buz = false
        ∧ (loopBuzzer now s).tiempoBeep = s.tiempoBeep)
    ∧ (¬ (s.sonando = true ∧ now ≥ s.tiempoBeep) → loopBuzzer now s = s)
    ∧ ((loopBuzzer now s).sonando ≠ s.sonando ↔ (s.sonando = true ∧ now ≥ s.tiempoBeep))
    ∧ (loopBuzzer now s).botonPulsado = s.botonPulsado
    ∧ (loopBuzzer now s).contador = s.contador
    ∧ (loopBuzzer now s).tiempoFuturo = s.tiempoFuturo
    ∧ (loopBuzzer now s).tiempoAnterior = s.tiempoAnterior := by
  obtain ⟨f1, f2, f3, f4, -⟩ := loopBuzzer_fields now s
  have hyes : (s.sonando = true ∧ now ≥ s.tiempoBeep) →
      (loopBuzzer now s).sonando = false ∧ (loopBuzzer now s).buz = false
      ∧ (loopBuzzer now s).tiempoBeep = s.tiempoBeep := by
    intro h
    simp [loopBuzzer, h.1, h.2]
  have hno : ¬ (s.sonando = true ∧ now ≥ s.tiempoBeep) → loopBuzzer now s = s := by
    intro h
    have h' : ¬ (now ≥ s.tiempoBeep ∧ s.sonando = true) := fun hh => h ⟨hh.2, hh.1⟩
    simp only [loopBuzzer, if_neg h']
  refine ⟨rfl, rfl, rfl, fun h => sumaUL_of_lt h, rfl, hyes, hno, ?_, f1, f2, f4, f3⟩
  constructor
  · intro hne
    by_contra hc
    rw [hno hc] at hne
    exact hne rfl
  · intro h
    rw [(hyes h).1, h.1]
    simp

/-- Instance of C13: the buzzer armed at 1120 is switched off by the pass of
`loop` at 1140 and not by the pass at 1139. -/
theorem buzzer_controller_witness :
    (Beep 1120 setup).tiempoBeep = 1140
    ∧ (loopBuzzer 1140 (Beep 1120 setup)).sonando = false
    ∧ loopBuzzer 1139 (Beep 1120 setup) = Beep 1120 setup :=
  ⟨(buzzer_controller 1120 setup).2.2.2.1 (by decide),
    ((buzzer_controller 1140 (Beep 1120 setup)).2.2.2.2.2.1 (by decide)).1,
    (buzzer_controller 1139 (Beep 1120 setup)).2.2.2.2.2.2.1 (by decide)⟩

theorem escanear_eq_foldl (now : Nat) (pins : Nat → Bool) (l : List s_Boton) (s : Estado) :
    escanear now pins l s
      = (primerActivo pins l).foldl (fun st ch => Beep now (Serial_write ch st)) s := by
  induction l with
  | nil => rfl
  | cons b l ih =>
    rw [escanear, primerActivo_cons]
    split_ifs with hb
    · rfl
    · exact ih

theorem foldl_Beep_fields (now : Nat) (l : List Char) :
    ∀ s : Estado,
      ((l.foldl (fun st ch => Beep now (Serial_write ch st)) s).sonando
          = if l = [] then s.sonando else true)
      ∧ ((l.foldl (fun st ch => Beep now (Serial_write ch st)) s).buz
          = if l = [] then s.buz else true)
      ∧ ((l.foldl (fun st ch => Beep now (Serial_write ch st)) s).tiempoBeep
          = if l = [] then s.tiempoBeep else sumaUL now CST_BEEP) := by
  induction l with
  | nil => intro s; simp
  | cons a l ih =>
    intro s
    obtain ⟨h1, h2, h3⟩ := ih (Beep now (Serial_write a s))
    simp only [List.foldl_cons, h1, h2, h3]
    by_cases hl : l = [] <;> simp [hl, Beep]

/-- C14: a dispatch at time `now` runs `Serial.write` then `Beep` once for each
byte it writes, in order; so if it writes at least one byte the buzzer is armed
(`sonando` set, buzzer pin high, `tiempoBeep = now + 20` as `unsigned long`),
and if it writes no byte the state, the buzzer state included, is unchanged. -/
theorem dispatch_arms_buzzer (c now : Nat) (pins : Nat → Bool) (s : Estado) :
    EnviarPulsacion c now pins s
      = (escritos s (EnviarPulsacion c now pins s)).foldl
          (fun st ch => Beep now (Serial_write ch st)) s
    ∧ (escritos s (EnviarPulsacion c now pins s) ≠ [] →
        (EnviarPulsacion c now pins s).sonando = true
        ∧ (EnviarPulsacion c now pins s).buz = true
        ∧ (EnviarPulsacion c now pins s).tiempoBeep = sumaUL now CST_BEEP
        ∧ (now + 20 < ULONG → (EnviarPulsacion c now pins s).tiempoBeep = now + 20))
    ∧ (escritos s (EnviarPulsacion c now pins s) = [] → EnviarPulsacion c now pins s = s) := by
  have hfold : EnviarPulsacion c now pins s
      = (bytesDespacho c pins).foldl (fun st ch => Beep now (Serial_write ch st)) s := by
    rw [EnviarPulsacion_eq_escanear, bytesDespacho]
    split_ifs
    · rw [List.foldl_append, ← escanear_eq_foldl, ← escanear_eq_foldl]
    · rw [List.append_nil, ← escanear_eq_foldl]
  have hesc := escritos_EnviarPulsacion c now pins s
  obtain ⟨h1, h2, h3⟩ := foldl_Beep_fields now (bytesDespacho c pins) s
  rw [hesc]
  refine ⟨hfold, fun hne => ?_, fun hnil => ?_⟩
  · rw [hfold, h1, h2, h3, if_neg hne, if_neg hne, if_neg hne]
    exact ⟨rfl, rfl, rfl, fun h => sumaUL_of_lt h⟩
  · rw [hfold, hnil]
    rfl

/-- Instance of C14: +1 local and reset held on the first press, dispatch at
1120: two bytes, buzzer armed until 1140; no pin active: state unchanged. -/
theorem dispatch_arms_buzzer_witness :
    escritos setup (EnviarPulsacion 0 1120 (fun p => p == 12 || p == 4) setup) = ['a', 'j']
    ∧ (EnviarPulsacion 0 1120 (fun p => p == 12 || p == 4) setup).sonando = true
    ∧ (EnviarPulsacion 0 1120 (fun p => p == 12 || p == 4) setup).tiempoBeep = 1140
    ∧ EnviarPulsacion 0 1120 (fun _ => false) setup = setup := by
  have h := dispatch_arms_buzzer 0 1120 (fun p => p == 12 || p == 4) setup
  have h0 := dispatch_arms_buzzer 0 1120 (fun _ => false) setup
  have hne : escritos setup (EnviarPulsacion 0 1120 (fun p => p == 12 || p == 4) setup) ≠ [] := by
    decide
  exact ⟨by decide, (h.2.1 hne).1, (h.2.1 hne).2.2.2 (by decide), h0.2.2 (by decide)⟩

/-! ### Press edge -/

/-- C15: on the press edge `Pulsado` sets `tiempoFuturo` to `now + 120` (sum of
`unsigned long`) and the pressed flag, lights the led, writes no byte, and
leaves the counter, `tiempoAnterior` and the buzzer state as they were. -/
theorem Pulsado_press (now : Nat) (pins : Nat → Bool) (s : Estado)
    (h : pins DEF_INT.PIN = false) :
    (Pulsado now pins s).tiempoFuturo = sumaUL now CST_FILTRO
    ∧ (now + 120 < ULONG → (Pulsado now pins s).tiempoFuturo = now + 120)
    ∧ (Pulsado now pins s).botonPulsado = true
    ∧ (Pulsado now pins s).led = true
    ∧ (Pulsado now pins s).serie = s.serie
    ∧ escritos s (Pulsado now pins s) = []
    ∧ (Pulsado now pins s).contador = s.contador
    ∧ (Pulsado now pins s).tiempoAnterior = s.tiempoAnterior
    ∧ (Pulsado now pins s).sonando = s.sonando
    ∧ (Pulsado now pins s).tiempoBeep = s.tiempoBeep
    ∧ (Pulsado now pins s).buz = s.buz := by
  have hP : Pulsado now pins s
      = { s with tiempoFuturo := sumaUL now CST_FILTRO, led := true, botonPulsado := true } := by
    simp [Pulsado, h]
  rw [hP]
  refine ⟨rfl, fun hlt => sumaUL_of_lt hlt, rfl, rfl, rfl, ?_, rfl, rfl, rfl, rfl, rfl⟩
  simp [escritos]

/-- Instance of C15: the press edge at 1000 after `setup`. -/
theorem Pulsado_press_witness :
    (Pulsado 1000 (fun p => p == 12) setup).tiempoFuturo = 1000 + 120
    ∧ (Pulsado 1000 (fun p => p == 12) setup).botonPulsado = true
    ∧ escritos setup (Pulsado 1000 (fun p => p == 12) setup) = [] :=
  have h := Pulsado_press 1000 (fun p => p == 12) setup (by decide)
  ⟨h.2.1 (by decide), h.2.2.1, h.2.2.2.2.2.1⟩

/-! ### Time between presses -/

/-- With a score button held, the passes of `loop` that send a press are those
that write a byte. -/
theorem instantesAceptados_densos (pq : Nat → Nat → Bool)
    (hheld : ∀ t, primerActivo (pq t) cadenaPuntos ≠ []) :
    ∀ (n a : Nat) (u : Estado),
      instantesAceptados u (densos pq a n) = (despachos u (densos pq a n)).map Prod.fst := by
  intro n
  induction n with
  | zero => intro a u; rfl
  | succ n ih =>
    intro a u
    rw [densos, instantesAceptados, despachos, ih (a + 1) (loop a (pq a) u), List.map_append]
    congr 1
    rcases Bool.eq_false_or_eq_true (aceptado a u) with hacc | hacc
    · obtain ⟨-, -, -, -, g5⟩ := loop_of_aceptado (pq a) hacc
      have hesc : escritos u (loop a (pq a) u) ≠ [] := by
        rw [escritos_of_append g5, bytesDespacho]
        simp [hheld a]
      rw [if_neg hesc]
      simp [hacc]
    · obtain ⟨-, -, -, -, g5⟩ := loop_of_not_aceptado (pq a) hacc
      have hesc : escritos u (loop a (pq a) u) = [] := by simp [escritos, g5]
      rw [if_pos hesc]
      simp [hacc]

set_option maxRecDepth 100000 in
/-- C16, the firmware on a held button: +1 local held after the press edge at
1000, a pass of `loop` at every clock value from 1000 to 7845. The passes that
send a press are at the listed times; the last two, 7726 and 7845, are
consecutive and only 119 apart, less than `CST_FILTRO`. -/
theorem accepted_passes_119_apart :
    instantesAceptados setup
        (Evento.flanco 1000 (fun p => p == 12) :: densos (fun _ p => p == 12) 1000 6846)
      = [1120, 1614, 2018, 2368, 2681, 2966, 3230, 3477, 3710, 3931, 4142, 4344,
         4538, 4725, 4905, 5080, 5249, 5413, 5573, 5729, 5881, 6030, 6175, 6317,
         6457, 6594, 6728, 6860, 6989, 7116, 7241, 7364, 7485, 7606, 7726, 7845]
    ∧ 7845 - 7726 = 119 ∧ 119 ≤ CST_FILTRO := by
  have hplan : (plan 36 1120 0 0).map Prod.fst
      = [1120, 1614, 2018, 2368, 2681, 2966, 3230, 3477, 3710, 3931, 4142, 4344,
         4538, 4725, 4905, 5080, 5249, 5413, 5573, 5729, 5881, 6030, 6175, 6317,
         6457, 6594, 6728, 6860, 6989, 7116, 7241, 7364, 7485, 7606, 7726, 7845] := by
    decide
  have hplanN : planN 36 1120 0 0 = 7963 := by decide
  have hlt : ∀ x ∈ plan 36 1120 0 0, x.1 < 1000 + 6846 := by
    intro x hx
    have hmem : x.1 ∈ (plan 36 1120 0 0).map Prod.fst := List.mem_map_of_mem Prod.fst hx
    rw [hplan] at hmem
    revert hmem
    generalize x.1 = t
    intro hmem
    simp only [List.mem_cons, List.mem_singleton, List.not_mem_nil, or_false] at hmem
    omega
  have hheld : ∀ t : Nat, primerActivo ((fun _ p => p == 12) t) cadenaPuntos ≠ [] := by
    intro _
    show primerActivo (fun p => p == 12) cadenaPuntos ≠ []
    decide
  have key := despachos_densos (fun _ p => p == 12) hheld (2 ^ 16) 255 (by decide)
    (fun _ _ h1 h2 h3 => tiempoTrasRetardo_eq h1 h2 h3) 36
    (Pulsado 1000 (fun p => p == 12) setup) 1000 6846 (by decide) (by decide) (by decide)
    (by decide) (by decide) (Or.inr rfl) hlt
    (by
      show 1000 + 6846 ≤ planN 36 1120 0 0
      rw [hplanN]
      decide)
  refine ⟨?_, by decide, by decide⟩
  rw [← hplan]
  show instantesAceptados (Pulsado 1000 (fun p => p == 12) setup)
      (densos (fun _ p => p == 12) 1000 6846) = _
  rw [instantesAceptados_densos (fun _ p => p == 12) hheld, key]
  rfl

/-! ### The filter never underflows -/

theorem tiempoAnterior_le_of_run (now : Nat) (tr : List Evento) :
    ∀ u : Estado, u.tiempoAnterior ≤ now → (∀ e ∈ tr, tiempoDe e ≤ now) →
      (correr u tr).tiempoAnterior ≤ now := by
  induction tr with
  | nil => intro u h _; exact h
  | cons e tr ih =>
    intro u h hall
    rw [correr_cons]
    apply ih _ _ (fun e' he' => hall e' (List.mem_cons_of_mem _ he'))
    have he := hall e (List.mem_cons_self _ _)
    cases e with
    | flanco t pins =>
      show (Pulsado t pins u).tiempoAnterior ≤ now
      unfold Pulsado
      split_ifs <;> simpa [Serial_write] using h
    | tick t pins =>
      show (loop t pins u).tiempoAnterior ≤ now
      simp only [tiempoDe] at he
      rcases Bool.eq_false_or_eq_true (aceptado t u) with hacc | hacc
      · obtain ⟨-, -, g3, -⟩ := loop_of_aceptado pins hacc
        rw [g3]
        rw [aceptado_iff] at hacc
        exact le_trans hacc.1.1 he
      · obtain ⟨-, -, g3, -⟩ := loop_of_not_aceptado pins hacc
        rw [g3]
        exact h

/-- C17: in every state reached from `setup` by press edges, release edges and
passes of `loop`, `tiempoAnterior` is at most any clock value `now` that is not
before the events of the trace (under a monotonic clock: the current time, and
the time of every later pass; the order of the events among themselves plays no
role); so, inside the clock range, the subtraction `now - tiempoAnterior` of the
filter does not wrap: it is the plain difference. -/
theorem tiempoAnterior_le_now (tr : List Evento) (now : Nat)
    (hnow : ∀ e ∈ tr, tiempoDe e ≤ now) :
    (correr setup tr).tiempoAnterior ≤ now
    ∧ (now < ULONG →
        restaUL now (correr setup tr).tiempoAnterior = now - (correr setup tr).tiempoAnterior) := by
  have h := tiempoAnterior_le_of_run now tr setup (Nat.zero_le now) hnow
  exact ⟨h, fun hU => restaUL_of_le h hU⟩

set_option maxRecDepth 20000 in
/-- Instance of C17: press edge at 1000, passes of `loop` at 1121 (sent) and
1700 (sent), current time 1700. -/
theorem tiempoAnterior_le_now_witness :
    (correr setup [Evento.flanco 1000 (fun p => p == 12), Evento.tick 1121 (fun p => p == 12),
      Evento.tick 1700 (fun p => p == 12)]).tiempoAnterior = 1615
    ∧ (correr setup [Evento.flanco 1000 (fun p => p == 12), Evento.tick 1121 (fun p => p == 12),
      Evento.tick 1700 (fun p => p == 12)]).tiempoAnterior ≤ 1700 :=
  ⟨by decide,
    (tiempoAnterior_le_now
      [Evento.flanco 1000 (fun p => p == 12), Evento.tick 1121 (fun p => p == 12),
        Evento.tick 1700 (fun p => p == 12)] 1700 (by decide)).1⟩

/-! ### A press sent with no button read -/

theorem primerActivo_eq_nil {pins : Nat → Bool} {l : List s_Boton}
    (h : ∀ b ∈ l, pins b.PIN = false) : primerActivo pins l = [] := by
  have := primerActivo_append_inactive l [] h
  rwa [List.append_nil, primerActivo_nil] at this

theorem puntos_chr : ∀ b ∈ cadenaPuntos, b.CHR ∈ ['a', 'b', 'c', 'd'] := by
  decide

theorem momentaneos_chr : ∀ b ∈ cadenaMomentaneos, b.CHR ∉ ['a', 'b', 'c', 'd'] := by
  decide

/-- From a state with a non-zero counter, as long as no release edge comes, only
score bytes are written and the counter stays non-zero. -/
theorem solo_puntos_sin_soltar (tr : List Evento) :
    ∀ u : Estado, u.contador ≠ 0 → (∀ e ∈ tr, ¬ esSoltar e) →
      ∃ out, (correr u tr).serie = u.serie ++ out
        ∧ (∀ x ∈ out, x ∈ ['a', 'b', 'c', 'd'])
        ∧ (correr u tr).contador ≠ 0 := by
  induction tr with
  | nil => intro u hu _; exact ⟨[], by simp [correr_nil], by simp, hu⟩
  | cons e tr ih =>
    intro u hu hall
    have he := hall e (List.mem_cons_self _ _)
    have hrest : ∀ e' ∈ tr, ¬ esSoltar e' := fun e' he' => hall e' (List.mem_cons_of_mem _ he')
    rw [correr_cons]
    cases e with
    | flanco t pins =>
      simp only [esSoltar, Bool.not_eq_true] at he
      have hp : paso u (Evento.flanco t pins) = Pulsado t pins u := rfl
      have hs : (Pulsado t pins u).serie = u.serie := by simp [Pulsado, he]
      have hc : (Pulsado t pins u).contador = u.contador := by simp [Pulsado, he]
      obtain ⟨out, h1, h2, h3⟩ := ih (Pulsado t pins u) (by rw [hc]; exact hu) hrest
      rw [hp]
      exact ⟨out, by rw [h1, hs], h2, h3⟩
    | tick t pins =>
      have hp : paso u (Evento.tick t pins) = loop t pins u := rfl
      rw [hp]
      rcases Bool.eq_false_or_eq_true (aceptado t u) with hacc | hacc
      · obtain ⟨-, g2, -, -, g5⟩ := loop_of_aceptado pins hacc
        have hne : (loop t pins u).contador ≠ 0 := by
          rw [g2]
          split_ifs <;> omega
        obtain ⟨out, h1, h2, h3⟩ := ih (loop t pins u) hne hrest
        refine ⟨bytesDespacho u.contador pins ++ out, by rw [h1, g5, List.append_assoc], ?_, h3⟩
        intro x hx
        rcases List.mem_append.1 hx with hx | hx
        · rw [bytesDespacho, if_neg hu, List.append_nil] at hx
          obtain ⟨b, hb, -, rfl⟩ := primerActivo_mem hx
          exact puntos_chr b hb
        · exact h2 x hx
      · obtain ⟨-, g2, -, -, g5⟩ := loop_of_not_aceptado pins hacc
        obtain ⟨out, h1, h2, h3⟩ := ih (loop t pins u) (by rw [g2]; exact hu) hrest
        exact ⟨out, by rw [h1, g5], h2, h3⟩

/-- C18: a pass of `loop` that sends a press with counter 0 while none of the
ten button pins is active writes no byte and still sets the counter to 1; from
then on, whatever passes of `loop` and press edges follow and whatever the pins
read, as long as no release edge comes only score bytes a, b, c, d are written:
no momentary button is dispatched. -/
theorem accepted_pass_no_button (now : Nat) (pins : Nat → Bool) (s : Estado)
    (hacc : aceptado now s = true) (hc : s.contador = 0)
    (hpins : ∀ b ∈ cadenaPuntos ++ cadenaMomentaneos, pins b.PIN = false) :
    escritos s (loop now pins s) = []
    ∧ (loop now pins s).contador = 1
    ∧ (∀ tr : List Evento, (∀ e ∈ tr, ¬ esSoltar e) →
        (∀ x ∈ escritos (loop now pins s) (correr (loop now pins s) tr), x ∈ ['a', 'b', 'c', 'd'])
        ∧ (∀ b ∈ cadenaMomentaneos,
            b.CHR ∉ escritos (loop now pins s) (correr (loop now pins s) tr))) := by
  obtain ⟨-, g2, -, -, g5⟩ := loop_of_aceptado pins hacc
  have hA : primerActivo pins cadenaPuntos = [] :=
    primerActivo_eq_nil (fun b hb => hpins b (List.mem_append_left _ hb))
  have hB : primerActivo pins cadenaMomentaneos = [] :=
    primerActivo_eq_nil (fun b hb => hpins b (List.mem_append_right _ hb))
  have h1 : (loop now pins s).contador = 1 := by
    rw [g2, hc]
    rfl
  refine ⟨?_, h1, fun tr htr => ?_⟩
  · rw [escritos_of_append g5, bytesDespacho, hA, hB]
    simp
  · obtain ⟨out, k1, k2, -⟩ := solo_puntos_sin_soltar tr (loop now pins s) (by rw [h1]; decide) htr
    rw [escritos_of_append k1]
    exact ⟨k2, fun b hb hmem => momentaneos_chr b hb (k2 _ hmem)⟩

set_option maxRecDepth 20000 in
/-- Instance of C18: press edge at 1000 with no button pin active, pass of `loop`
at 1120 (sent, nothing written, counter 1), then reset becomes active and the
pass at 1700 sends a press without writing j. -/
theorem accepted_pass_no_button_witness :
    (loop 1120 (fun _ => false) (Pulsado 1000 (fun _ => false) setup)).contador = 1
    ∧ aceptado 1700 (loop 1120 (fun _ => false) (Pulsado 1000 (fun _ => false) setup)) = true
    ∧ 'j' ∉ escritos (loop 1120 (fun _ => false) (Pulsado 1000 (fun _ => false) setup))
        (correr (loop 1120 (fun _ => false) (Pulsado 1000 (fun _ => false) setup))
          [Evento.tick 1700 (fun p => p == 4)]) := by
  have h := accepted_pass_no_button 1120 (fun _ => false) (Pulsado 1000 (fun _ => false) setup)
    (by decide) (by decide) (fun _ _ => rfl)
  refine ⟨h.2.1, by decide, ?_⟩
  exact (h.2.2 [Evento.tick 1700 (fun p => p == 4)]
    (by intro e he; simp only [List.mem_singleton] at he; subst he; simp [esSoltar])).2
    DEF_RST (by decide)

/-! ### Nothing is sent while released -/

theorem correr_ticks_soltado (ticks : List Evento) :
    ∀ u : Estado, u.botonPulsado = false → (∀ e ∈ ticks, esTick e) →
      (correr u ticks).serie = u.serie ∧ (correr u ticks).botonPulsado = false := by
  induction ticks with
  | nil => intro u hu _; exact ⟨rfl, hu⟩
  | cons e tr ih =>
    intro u hu hall
    have he := hall e (List.mem_cons_self _ _)
    cases e with
    | flanco t pins => exact absurd he (by simp [esTick])
    | tick t pins =>
      have hna : aceptado t u = false := not_aceptado_of_not_pulsado hu
      obtain ⟨g1, -, -, -, g5⟩ := loop_of_not_aceptado pins hna
      rw [correr_cons]
      have hp : paso u (Evento.tick t pins) = loop t pins u := rfl
      rw [hp]
      obtain ⟨k1, k2⟩ := ih (loop t pins u) (by rw [g1]; exact hu)
        (fun e' he' => hall e' (List.mem_cons_of_mem _ he'))
      exact ⟨k1.trans g5, k2⟩

/-- C19: a pass of `loop` in a state whose pressed flag is clear writes no byte
and leaves the flag clear; so after a release edge, whatever passes of `loop`
follow before the next press edge write nothing; and the interrupt routine
itself writes either nothing (press edge) or the single byte e (release edge). -/
theorem no_byte_while_released (s : Estado) (now : Nat) (pins : Nat → Bool) :
    (s.botonPulsado = false →
        escritos s (loop now pins s) = [] ∧ (loop now pins s).botonPulsado = false)
    ∧ (pins DEF_INT.PIN = true →
        (Pulsado now pins s).botonPulsado = false
        ∧ ∀ ticks : List Evento, (∀ e ∈ ticks, esTick e) →
            escritos (Pulsado now pins s) (correr (Pulsado now pins s) ticks) = [])
    ∧ (pins DEF_INT.PIN = false → escritos s (Pulsado now pins s) = [])
    ∧ (pins DEF_INT.PIN = true → escritos s (Pulsado now pins s) = ['e']) := by
  refine ⟨fun h => ?_, fun h => ?_, fun h => ?_, fun h => ?_⟩
  · have hna : aceptado now s = false := not_aceptado_of_not_pulsado h
    obtain ⟨g1, -, -, -, g5⟩ := loop_of_not_aceptado pins hna
    exact ⟨by simp [escritos, g5], g1.trans h⟩
  · have hb : (Pulsado now pins s).botonPulsado = false := by simp [Pulsado, h, Serial_write]
    refine ⟨hb, fun ticks ht => ?_⟩
    obtain ⟨k1, -⟩ := correr_ticks_soltado ticks (Pulsado now pins s) hb ht
    simp [escritos, k1]
  · simp [escritos, Pulsado, h]
  · exact escritos_of_append (serie_tras_soltar now pins s h)

set_option maxRecDepth 20000 in
/-- Instance of C19: after the press at 1000, the dispatch at 1120 and the
release at 1300, the passes of `loop` at 1400 and 5000 with +1 local and reset
read active write nothing. -/
theorem no_byte_while_released_witness :
    escritos
      (Pulsado 1300 (fun p => p == 2)
        (loop 1120 (fun p => p == 12) (Pulsado 1000 (fun p => p == 12) setup)))
      (correr
        (Pulsado 1300 (fun p => p == 2)
          (loop 1120 (fun p => p == 12) (Pulsado 1000 (fun p => p == 12) setup)))
        [Evento.tick 1400 (fun p => p == 12 || p == 4),
         Evento.tick 5000 (fun p => p == 12 || p == 4)]) = [] :=
  ((no_byte_while_released
      (loop 1120 (fun p => p == 12) (Pulsado 1000 (fun p => p == 12) setup))
      1300 (fun p => p == 2)).2.1 rfl).2 _
    (by
      intro e he
      simp only [List.mem_cons, List.mem_singleton, List.not_mem_nil, or_false] at he
      rcases he with rfl | rfl <;> exact trivial)

/-! ### The `float` delay against the real curve -/

theorem le_cociente_gen (A n k : Nat) :
    (k : ℝ) ≤ (A : ℝ) / Real.sqrt ((n : ℝ) + 1) ↔ k * k * (n + 1) ≤ A * A := by
  have hm : (0 : ℝ) < (n : ℝ) + 1 := by positivity
  have hs : 0 < Real.sqrt ((n : ℝ) + 1) := Real.sqrt_pos.2 hm
  rw [le_div_iff₀ hs]
  have h2 : (k : ℝ) * Real.sqrt ((n : ℝ) + 1) = Real.sqrt ((k : ℝ) ^ 2 * ((n : ℝ) + 1)) := by
    rw [Real.sqrt_mul (sq_nonneg _), Real.sqrt_sq (Nat.cast_nonneg k)]
  rw [h2, Real.sqrt_le_left (Nat.cast_nonneg A)]
  have e1 : (k : ℝ) ^ 2 * ((n : ℝ) + 1) = ((k * k * (n + 1) : ℕ) : ℝ) := by
    push_cast
    ring
  have e2 : (A : ℝ) ^ 2 = ((A * A : ℕ) : ℝ) := by
    push_cast
    ring
  rw [e1, e2, Nat.cast_le]

theorem cociente_le_gen (A n k : Nat) (h : A * A ≤ k * k * (n + 1)) :
    (A : ℝ) / Real.sqrt ((n : ℝ) + 1) ≤ (k : ℝ) := by
  have hm : (0 : ℝ) < (n : ℝ) + 1 := by positivity
  have hs : 0 < Real.sqrt ((n : ℝ) + 1) := Real.sqrt_pos.2 hm
  rw [div_le_iff₀ hs]
  have h2 : (k : ℝ) * Real.sqrt ((n : ℝ) + 1) = Real.sqrt ((k : ℝ) ^ 2 * ((n : ℝ) + 1)) := by
    rw [Real.sqrt_mul (sq_nonneg _), Real.sqrt_sq (Nat.cast_nonneg k)]
  rw [h2]
  apply Real.le_sqrt_of_sq_le
  have e1 : (k : ℝ) ^ 2 * ((n : ℝ) + 1) = ((k * k * (n + 1) : ℕ) : ℝ) := by
    push_cast
    ring
  have e2 : (A : ℝ) ^ 2 = ((A * A : ℕ) : ℝ) := by
    push_cast
    ring
  rw [e1, e2, Nat.cast_le]
  exact h

set_option maxRecDepth 1000000 in
set_option maxHeartbeats 4000000 in
theorem RetardoF_cotas : ∀ c, c < 256 →
    (195 ≤ c ∧ RetardoF c = 50 * UNIDAD)
    ∨ (c < 195 ∧ 2 ^ 24 ≤ RetardoF c
        ∧ (RetardoF c - 2 ^ 24) * (RetardoF c - 2 ^ 24) * (c + 1)
            ≤ (700 * UNIDAD) * (700 * UNIDAD)
        ∧ (700 * UNIDAD) * (700 * UNIDAD)
            ≤ (RetardoF c + 2 ^ 24) * (RetardoF c + 2 ^ 24) * (c + 1)) := by
  decide

theorem Retardo_real_lt {n : Nat} (hn : n < 195) :
    Retardo (fun x y : ℝ => x ^ y) n = 700 / Real.sqrt ((n : ℝ) + 1) := by
  have h : ((50 : ℕ) : ℝ) < 700 / Real.sqrt ((n : ℝ) + 1) :=
    (lt_cociente_iff n 50).2 (by omega)
  have h' : (50 : ℝ) < 700 / Real.sqrt ((n : ℝ) + 1) := by simpa using h
  rw [Retardo_real, max_eq_right h'.le]

theorem Retardo_real_ge {n : Nat} (hn : 195 ≤ n) :
    Retardo (fun x y : ℝ => x ^ y) n = 50 := by
  rw [Retardo_real]
  apply max_eq_left
  have h : ¬ ((50 : ℕ) : ℝ) < 700 / Real.sqrt ((n : ℝ) + 1) := by
    rw [lt_cociente_iff]
    omega
  simpa using h

/-- The `float` delay of the state machine is a binary32 rounding of the real
`Retardo`: the two differ by at most `2 ^ (-16)`, half a unit in the last place
of the binary32 numbers between 256 and 512. -/
theorem RetardoF_cerca (c : Nat) (h : c ≤ 255) :
    |(RetardoF c : ℝ) / 2 ^ 40 - Retardo (fun x y : ℝ => x ^ y) c| ≤ 1 / 2 ^ 16 := by
  have hU : ((UNIDAD : ℕ) : ℝ) = 2 ^ 40 := by
    unfold UNIDAD
    norm_num
  rcases RetardoF_cotas c (by omega) with ⟨h1, h2⟩ | ⟨h1, h2, h3, h4⟩
  · rw [Retardo_real_ge h1, h2]
    push_cast
    rw [hU]
    norm_num
  · rw [Retardo_real_lt h1]
    have hlo := (le_cociente_gen (700 * UNIDAD) c (RetardoF c - 2 ^ 24)).2 h3
    have hhi := cociente_le_gen (700 * UNIDAD) c (RetardoF c + 2 ^ 24) h4
    have hs : 0 < Real.sqrt ((c : ℝ) + 1) := Real.sqrt_pos.2 (by positivity)
    have hx : ((700 * UNIDAD : ℕ) : ℝ) / Real.sqrt ((c : ℝ) + 1)
        = 700 / Real.sqrt ((c : ℝ) + 1) * 2 ^ 40 := by
      push_cast
      rw [hU]
      ring
    rw [hx] at hlo hhi
    rw [Nat.cast_sub h2] at hlo
    push_cast at hlo hhi
    rw [abs_le]
    constructor
    · have : (RetardoF c : ℝ) / 2 ^ 40 - 700 / Real.sqrt ((c : ℝ) + 1)
          = ((RetardoF c : ℝ) + 2 ^ 24 - 700 / Real.sqrt ((c : ℝ) + 1) * 2 ^ 40) / 2 ^ 40
            - 1 / 2 ^ 16 := by
        field_simp
        ring
      rw [this]
      have h0 : 0 ≤ ((RetardoF c : ℝ) + 2 ^ 24 - 700 / Real.sqrt ((c : ℝ) + 1) * 2 ^ 40) / 2 ^ 40 :=
        div_nonneg (by linarith) (by positivity)
      linarith
    · have : (RetardoF c : ℝ) / 2 ^ 40 - 700 / Real.sqrt ((c : ℝ) + 1)
          = ((RetardoF c : ℝ) - 2 ^ 24 - 700 / Real.sqrt ((c : ℝ) + 1) * 2 ^ 40) / 2 ^ 40
            + 1 / 2 ^ 16 := by
        field_simp
        ring
      rw [this]
      have h0 : ((RetardoF c : ℝ) - 2 ^ 24 - 700 / Real.sqrt ((c : ℝ) + 1) * 2 ^ 40) / 2 ^ 40 ≤ 0 :=
        div_nonpos_of_nonpos_of_nonneg (by linarith) (by positivity)
      linarith

set_option maxRecDepth 100000 in
/-- Values of the assignment of line 181 for counter 1 along the life of the
clock: exact at first, then rounded by the `float` sum. -/
theorem tiempoTrasRetardo_valores :
    tiempoTrasRetardo 1120 1 = 1614
    ∧ tiempoTrasRetardo 523793 1 = 524287
    ∧ tiempoTrasRetardo 523794 1 = 524289
    ∧ tiempoTrasRetardo 600120 1 = 600615
    ∧ tiempoTrasRetardo 16777217 1 = 16777710
    ∧ tiempoTrasRetardo 100000000 1 = 100000496 := by
  decide

end Mando
